import Mathlib

/-!
Verification of the whatsapp-ds-analytics repository against its
natural-language specification.

The Python sources are shallowly embedded: a Python `str` is modelled as a
`List Char` (a Python string is a sequence of Unicode code points), file
contents are a `List Char`, a file on disk is an entry of an explicit
file-system value, and fallible code returns `Except`.  Machine-specific
aspects that the claims do not touch (float percentage formatting, CSV
serialization mechanics — both declared out of scope by the spec) are noted
at their definition sites.
-/

deriving instance DecidableEq for Except

namespace WDS

/-! ## Python string primitives -/

/-- Python whitespace for `str.strip` / `str.lstrip` / `str.rstrip` and the
regex class `\s` (ASCII part; the exotic Unicode space code points never
occur in this repository's data and are not modelled). -/
def isPyWs (c : Char) : Bool :=
  c = ' ' || c = '\t' || c = '\n' || c = '\r' || c = '\x0b' || c = '\x0c'

/-- Python `str.lstrip()`. -/
def pyLstrip (s : List Char) : List Char := s.dropWhile isPyWs

/-- Python `str.rstrip()`. -/
def pyRstrip (s : List Char) : List Char :=
  (s.reverse.dropWhile isPyWs).reverse

/-- Python `str.strip()`. -/
def pyStrip (s : List Char) : List Char := pyRstrip (pyLstrip s)

/-- Python `str.lower()`.  The repository only lowercases ASCII marker
text, so the ASCII case mapping of `Char.toLower` is the relevant part. -/
def pyLower (s : List Char) : List Char := s.map Char.toLower

/-- Python `str.rstrip('\n')`. -/
def rstripNL (s : List Char) : List Char :=
  (s.reverse.dropWhile (· = '\n')).reverse

/-- Python substring test `needle in hay`. -/
def containsSub (needle : List Char) : List Char → Bool
  | [] => needle.isEmpty
  | hay@(_ :: rest) => needle.isPrefixOf hay || containsSub needle rest

/-- `f.readlines()`: split file content into lines, each keeping its
terminating newline; a final unterminated line is kept as-is.
Accumulator holds the current line reversed. -/
def pyReadlinesAux (acc : List Char) : List Char → List (List Char)
  | [] => if acc.isEmpty then [] else [acc.reverse]
  | c :: rest =>
    if c = '\n' then (acc.reverse ++ ['\n']) :: pyReadlinesAux [] rest
    else pyReadlinesAux (c :: acc) rest

/-- Python `open(f).readlines()`. -/
def pyReadlines (s : List Char) : List (List Char) := pyReadlinesAux [] s

/-- Line-break code points recognized by Python `str.splitlines`. -/
def isPyLineBreak (c : Char) : Bool :=
  c = '\n' || c = '\r' || c = '\x0b' || c = '\x0c' ||
  c = '\x1c' || c = '\x1d' || c = '\x1e' || c = '\x85' ||
  c = '\u2028' || c = '\u2029'

/-- Python `str.splitlines` (used by the audit's line counter); `\r\n`
counts as a single break. -/
def pySplitlinesAux (acc : List Char) : List Char → List (List Char)
  | [] => if acc.isEmpty then [] else [acc.reverse]
  | '\r' :: '\n' :: rest => acc.reverse :: pySplitlinesAux [] rest
  | c :: rest =>
    if isPyLineBreak c then acc.reverse :: pySplitlinesAux [] rest
    else pySplitlinesAux (c :: acc) rest

def pySplitlines (s : List Char) : List (List Char) := pySplitlinesAux [] s

/-- Size in bytes of a UTF-8 encoded text (`os.path.getsize` of a file
written with `encoding='utf-8'`, or `len(line.encode('utf-8'))`). -/
def sizeBytes (s : List Char) : Nat := (s.map Char.utf8Size).sum

/-- Length of the leading whitespace run (`len(line) - len(line.lstrip())`). -/
def leadWsRun (s : List Char) : Nat := (s.takeWhile isPyWs).length

/-! ## Message classifier (`src/wrangling.py`, `classify_message_type`) -/

/-- The fixed enumeration of message type tags produced by the classifier. -/
inductive MessageType where
  | message_deleted | message_edited
  | missed_call | voice_call
  | system_message
  | audio_omitted | image_omitted | video_omitted | video_note_omitted
  | sticker_omitted | gif_omitted | document_omitted
  | audio_attached | image_attached | video_attached | sticker_attached
  | contact_attached | file_attached
  | text_with_link | text_with_emoji | text_pure
  deriving DecidableEq, Repr

/-- The `omitted_types` dict of `classify_message_type`, in insertion
(= iteration) order. -/
def omittedTypes : List (List Char × MessageType) :=
  [("audio omitted".data, .audio_omitted),
   ("image omitted".data, .image_omitted),
   ("video omitted".data, .video_omitted),
   ("video note omitted".data, .video_note_omitted),
   ("sticker omitted".data, .sticker_omitted),
   ("gif omitted".data, .gif_omitted),
   ("document omitted".data, .document_omitted)]

/-- The `<attached:` branch of `classify_message_type`: the chain of
substring tests on the lowercased content. -/
def attachedKind (cl : List Char) : MessageType :=
  if containsSub "audio".data cl || containsSub ".opus".data cl
      || containsSub ".mp3".data cl then .audio_attached
  else if containsSub "photo".data cl || containsSub ".jpg".data cl
      || containsSub ".png".data cl then .image_attached
  else if containsSub "video".data cl || containsSub ".mp4".data cl then .video_attached
  else if containsSub "sticker".data cl || containsSub ".webp".data cl then .sticker_attached
  else if containsSub ".vcf".data cl then .contact_attached
  else .file_attached

/-- Rules 1-6 of `classify_message_type` (deleted, edited, calls, system
marker, omitted media, attached media), all evaluated on
`content_lower = content.lower().strip()`; `none` means fall through to
the URL / emoji / plain-text rules. -/
def classifyMarkerRules (cl : List Char) : Option MessageType :=
  if containsSub "this message was deleted".data cl then some .message_deleted
  else if containsSub "<this message was edited>".data cl then some .message_edited
  else if containsSub "voice call".data cl || containsSub "video call".data cl then
    if containsSub "missed".data cl then some .missed_call else some .voice_call
  else if containsSub "this message can't be displayed".data cl then some .system_message
  else
    match omittedTypes.find? (fun p => cl == p.1 || containsSub p.1 cl) with
    | some p => some p.2
    | none =>
      if containsSub "<attached:".data cl then some (attachedKind cl)
      else none

/-- The regex search `https?://[^\s]+` on the original (not lowercased)
content: some position starts with the literal scheme `http://` or
`https://` followed by at least one non-whitespace character. -/
def hasUrlAt (s : List Char) : Bool :=
  ("http://".data.isPrefixOf s &&
    (match s.drop 7 with | c :: _ => !isPyWs c | [] => false)) ||
  ("https://".data.isPrefixOf s &&
    (match s.drop 8 with | c :: _ => !isPyWs c | [] => false))

def hasUrl : List Char → Bool
  | [] => false
  | s@(_ :: rest) => hasUrlAt s || hasUrl rest

/-- `classify_message_type(content)` from `src/wrangling.py`.  The marker
rules run on `content.lower().strip()`; the URL search and the emoji scan
run on the original `content` (the source passes `content`, not
`content_lower`, to `re.search` and to the `ord` scan). -/
def classify_message_type (content : List Char) : MessageType :=
  let cl := pyStrip (pyLower content)
  match classifyMarkerRules cl with
  | some t => t
  | none =>
    if hasUrl content then .text_with_link
    else if content.any (fun c => c.toNat > 0x1F600) then .text_with_emoji
    else .text_pure

/-! ## Cleaning transforms (`src/cleaning.py`)

Each transform in the source reads `input_file` via `readlines()`,
processes the list of lines, and writes the result with `writelines`; it
is embedded as a function on the file content (the concatenation of the
written lines).  The metrics dict each Python function returns alongside
is modelled separately where a claim refers to it. -/

/-- `remove_u200e`: delete every occurrence of U+200E. -/
def remove_u200e (content : List Char) : List Char :=
  ((pyReadlines content).map (fun l => l.filter (fun c => !(c = '\u200e')))).flatten

/-- The regex `^\[\d{2}/\d{2}/\d{2}, \d{2}:\d{2}:\d{2}\]` used by
`remove_empty_timestamps` (prefix match; `\d` modelled as ASCII digits,
the only digits occurring in this data). -/
def matchTsBracket : List Char → Bool
  | '[' :: d1 :: d2 :: '/' :: m1 :: m2 :: '/' :: y1 :: y2 :: ',' :: ' '
      :: h1 :: h2 :: ':' :: n1 :: n2 :: ':' :: s1 :: s2 :: ']' :: _ =>
    d1.isDigit && d2.isDigit && m1.isDigit && m2.isDigit && y1.isDigit && y2.isDigit &&
    h1.isDigit && h2.isDigit && n1.isDigit && n2.isDigit && s1.isDigit && s2.isDigit
  | _ => false

/-- The `media_patterns` list of `remove_empty_timestamps` (matched
case-sensitively in the source, note the capitalised `GIF omitted`). -/
def media_patterns : List (List Char) :=
  ["<attached:".data, "audio omitted".data, "image omitted".data,
   "video omitted".data, "sticker omitted".data, "GIF omitted".data,
   "document omitted".data]

/-- Whether line `i` of `remove_empty_timestamps`'s input is added to the
`skip` set: a bracketed-timestamp line whose stripped text ends in `:`,
followed by two bracketed-timestamp lines both containing a media marker
(the `range(len(lines) - 2)` bound corresponds to all three indexed lines
existing). -/
def skipIdx (lines : List (List Char)) (i : Nat) : Bool :=
  match lines.get? i, lines.get? (i+1), lines.get? (i+2) with
  | some c, some n1, some n2 =>
    let curr := pyStrip c
    let x1 := pyStrip n1
    let x2 := pyStrip n2
    matchTsBracket curr && (curr.getLast? == some ':') && matchTsBracket x1 &&
      media_patterns.any (fun p => containsSub p x1) &&
      (matchTsBracket x2 && media_patterns.any (fun p => containsSub p x2))
  | _, _, _ => false

/-- `remove_empty_timestamps`. -/
def remove_empty_timestamps (content : List Char) : List Char :=
  let lines := pyReadlines content
  ((lines.enum.filter (fun p => !skipIdx lines p.1)).map (fun p => p.2)).flatten

/-- `remove_empty_lines`: drop lines that are exactly `"\n"`. -/
def remove_empty_lines (content : List Char) : List Char :=
  ((pyReadlines content).filter (fun l => !(l == ['\n']))).flatten

/-- `line.replace('\t', ' ')` on one character. -/
def tabToSpace (c : Char) : Char := if c = '\t' then ' ' else c

/-- `re.sub(r' {2,}', ' ', content)`: every maximal run of two or more
spaces becomes a single space. -/
def collapseSpaces : List Char → List Char
  | [] => []
  | [c] => [c]
  | c1 :: c2 :: rest =>
    if c1 = ' ' && c2 = ' ' then collapseSpaces (c2 :: rest)
    else c1 :: collapseSpaces (c2 :: rest)

/-- One line of `normalize_whitespace`: the source first does
`line = line.rstrip() + '\n'`, then computes
`indent = len(line) - len(line.lstrip())` on that already-rstripped line,
converts tabs and collapses space runs in `line[indent:]`, and re-attaches
`line[:indent]`. -/
def normalize_whitespace_line (line : List Char) : List Char :=
  let line2 := pyRstrip line ++ ['\n']
  let indent := line2.length - (pyLstrip line2).length
  line2.take indent ++ collapseSpaces ((line2.drop indent).map tabToSpace)

/-- `normalize_whitespace`. -/
def normalize_whitespace (content : List Char) : List Char :=
  ((pyReadlines content).map normalize_whitespace_line).flatten

/-- The metrics dict of `normalize_whitespace`:
`{'bytes_economizados': orig_size - clean_size}` where both sizes are sums
of per-line UTF-8 byte lengths. -/
def normalize_whitespace_metric (content : List Char) : Int :=
  ((pyReadlines content).map (fun l => (sizeBytes l : Int))).sum
    - ((pyReadlines content).map (fun l => (sizeBytes (normalize_whitespace_line l) : Int))).sum

/-- Python `str.replace`: replace all non-overlapping occurrences of
`n :: ns`, scanning left to right.  The needle is passed head/tail so it
is manifestly nonempty; recursion is on a fuel bound (each step consumes
at least one character, so `s.length` fuel always suffices). -/
def replaceSubFuel (n : Char) (ns repl : List Char) : Nat → List Char → List Char
  | 0, s => s
  | _, [] => []
  | fuel + 1, c :: rest =>
    if (n :: ns).isPrefixOf (c :: rest) then
      repl ++ replaceSubFuel n ns repl fuel (rest.drop ns.length)
    else c :: replaceSubFuel n ns repl fuel rest

def replaceSub (n : Char) (ns repl s : List Char) : List Char :=
  replaceSubFuel n ns repl s.length s

/-- One line of `anonymize_participants`: for each `(name, anon)` in the
mapping `{'Marlon': 'P1', 'Lê 🖤': 'P2'}` (in insertion order), if
`f'] {name}:'` occurs in the line, replace it by `f'] {anon}:'`. -/
def anonymize_line (line : List Char) : List Char :=
  let l1 := if containsSub "] Marlon:".data line
    then replaceSub ']' " Marlon:".data "] P1:".data line else line
  if containsSub "] Lê 🖤:".data l1
    then replaceSub ']' " Lê 🖤:".data "] P2:".data l1 else l1

/-- `anonymize_participants`. -/
def anonymize_participants (content : List Char) : List Char :=
  ((pyReadlines content).map anonymize_line).flatten

/-- One line of `optimize_timestamps`: rewrite a leading
`[DD/MM/YY, HH:MM:SS]` (20 matched characters) into `DD/MM/YY HH:MM:SS`. -/
def optimize_timestamps_line (line : List Char) : List Char :=
  match line with
  | '[' :: d1 :: d2 :: '/' :: m1 :: m2 :: '/' :: y1 :: y2 :: ',' :: ' '
      :: h1 :: h2 :: ':' :: n1 :: n2 :: ':' :: s1 :: s2 :: ']' :: rest =>
    if d1.isDigit && d2.isDigit && m1.isDigit && m2.isDigit && y1.isDigit && y2.isDigit &&
        h1.isDigit && h2.isDigit && n1.isDigit && n2.isDigit && s1.isDigit && s2.isDigit then
      [d1, d2, '/', m1, m2, '/', y1, y2, ' ', h1, h2, ':', n1, n2, ':', s1, s2] ++ rest
    else line
  | _ => line

/-- `optimize_timestamps`. -/
def optimize_timestamps (content : List Char) : List Char :=
  ((pyReadlines content).map optimize_timestamps_line).flatten

/-- The regex `^\d{2}/\d{2}/\d{2} \d{2}:\d{2}:\d{2}` used by
`normalize_indentation` (prefix match). -/
def matchTsPlain : List Char → Bool
  | d1 :: d2 :: '/' :: m1 :: m2 :: '/' :: y1 :: y2 :: ' '
      :: h1 :: h2 :: ':' :: n1 :: n2 :: ':' :: s1 :: s2 :: _ =>
    d1.isDigit && d2.isDigit && m1.isDigit && m2.isDigit && y1.isDigit && y2.isDigit &&
    h1.isDigit && h2.isDigit && n1.isDigit && n2.isDigit && s1.isDigit && s2.isDigit
  | _ => false

/-- One line of `normalize_indentation`: a line not starting with an
optimized timestamp is a continuation line and loses its leading
spaces/tabs (`line.lstrip(' \t')`). -/
def normalize_indentation_line (line : List Char) : List Char :=
  if matchTsPlain line then line
  else line.dropWhile (fun c => c = ' ' || c = '\t')

/-- `normalize_indentation`. -/
def normalize_indentation (content : List Char) : List Char :=
  ((pyReadlines content).map normalize_indentation_line).flatten

/-! ## Cleaning pipeline executor (`src/cleaning.py`, `run_pipeline`,
and `src/utils/audit.py`) -/

/-- `CLEANING_STEPS`: the fixed, ordered registry mapping step ids to
transform functions (name/description metadata omitted — no claim touches
it). -/
def CLEANING_STEPS : List (String × (List Char → List Char)) :=
  [("u200e", remove_u200e),
   ("empty_timestamps", remove_empty_timestamps),
   ("empty_lines", remove_empty_lines),
   ("whitespace", normalize_whitespace),
   ("anonymize", anonymize_participants),
   ("timestamps", optimize_timestamps),
   ("indentation", normalize_indentation)]

def lookupStep (sid : String) : Option (String × (List Char → List Char)) :=
  CLEANING_STEPS.find? (fun p => p.1 == sid)

/-- `get_file_stats`: size in bytes, `len(content.splitlines())` lines,
`len(content)` characters (path/name/formatted-size fields omitted). -/
structure FileStats where
  size_bytes : Nat
  total_lines : Nat
  total_chars : Nat
  deriving DecidableEq, Repr

def get_file_stats (content : List Char) : FileStats :=
  { size_bytes := sizeBytes content,
    total_lines := (pySplitlines content).length,
    total_chars := content.length }

/-- `audit_transformation`: the before/after deltas for one step.  The
deltas are Python ints (modelled as `Int`: a step may grow the file); the
float `delta_percent` enters no claim and is omitted. -/
structure Audit where
  delta_lines : Int
  delta_bytes : Int
  delta_chars : Int
  lines_match : Bool
  deriving DecidableEq, Repr

def audit_transformation (inp outp : List Char) : Audit :=
  let before := get_file_stats inp
  let after := get_file_stats outp
  { delta_lines := (before.total_lines : Int) - after.total_lines,
    delta_bytes := (before.size_bytes : Int) - after.size_bytes,
    delta_chars := (before.total_chars : Int) - after.total_chars,
    lines_match := before.total_lines == after.total_lines }

/-- The `totals` dict computed by `audit_pipeline` over the stage list
`raw :: outputs`: first-stage stats minus last-stage stats (the float
`total_percent` and formatted strings enter no claim and are omitted). -/
structure Totals where
  total_lines : Int
  total_bytes : Int
  total_chars : Int
  original_bytes : Nat
  final_bytes : Nat
  deriving DecidableEq, Repr

def audit_pipeline (first : List Char) (rest : List (List Char)) : Totals :=
  let s0 := get_file_stats first
  let sl := get_file_stats (rest.getLastD first)
  { total_lines := (s0.total_lines : Int) - sl.total_lines,
    total_bytes := (s0.size_bytes : Int) - sl.size_bytes,
    total_chars := (s0.total_chars : Int) - sl.total_chars,
    original_bytes := s0.size_bytes,
    final_bytes := sl.size_bytes }

/-- Apply one registered step (callers only reach this with registered
ids; an unknown id is the identity, never exercised by `run_pipeline`). -/
def applyStep (sid : String) (c : List Char) : List Char :=
  match lookupStep sid with
  | some p => p.2 c
  | none => c

/-- The chained intermediate outputs: step k's output is step k+1's
input. -/
def outputsOf (raw : List Char) : List String → List (List Char)
  | [] => []
  | sid :: rest => applyStep sid raw :: outputsOf (applyStep sid raw) rest

/-- The per-step audit records, each comparing a step's input and output
files. -/
def auditsOf (raw : List Char) : List String → List Audit
  | [] => []
  | sid :: rest =>
    audit_transformation raw (applyStep sid raw) :: auditsOf (applyStep sid raw) rest

/-- The successful result of `run_pipeline`: intermediate outputs keyed by
step id, per-step audits, pipeline totals, final output (metrics dicts and
the progress console output enter no claim and are omitted). -/
structure CleaningResult where
  outputs : List (String × List Char)
  audits : List Audit
  totals : Totals
  final_output : List Char
  deriving DecidableEq, Repr

/-- `run_pipeline(order, raw_file, output_dir)`.  It first validates every
id of `order` against `CLEANING_STEPS` and raises
`ValueError(f"IDs de etapa inválidos: {invalid_ids} ...")` — modelled as
`Except.error invalid_ids` — before any step executes, so on the error
path no step runs and no intermediate file is produced. -/
def run_pipeline (order : List String) (raw : List Char) :
    Except (List String) CleaningResult :=
  if (order.filter (fun sid => (lookupStep sid).isNone)).isEmpty then
    .ok { outputs := order.zip (outputsOf raw order),
          audits := auditsOf raw order,
          totals := audit_pipeline raw (outputsOf raw order),
          final_output := (outputsOf raw order).getLastD raw }
  else .error (order.filter (fun sid => (lookupStep sid).isNone))

/-! ## Message parser (`src/wrangling.py`, `parse_to_dataframe`)

The message-start regex is
`^(\d{2}/\d{2}/\d{2}) (\d{2}:\d{2}:\d{2}) (.+?): (.*)$`, applied with
`re.match` to each line after `line.rstrip('\n')`.  The lazy `(.+?)`
makes the sender the shortest nonempty run up to the first `": "`
occurrence; `.` does not match a newline (the rstripped lines contain
none).  `\d` is modelled as ASCII digits, the only digits in this data. -/

/-- Find the first occurrence of `": "` in a run of non-newline
characters: returns the part before it and the part after it. -/
def findColonSpace : List Char → Option (List Char × List Char)
  | [] => none
  | [_] => none
  | c1 :: c2 :: rest =>
    if c1 = ':' && c2 = ' ' then some ([], rest)
    else if c1 = '\n' then none
    else (findColonSpace (c2 :: rest)).map (fun p => (c1 :: p.1, p.2))

/-- The `(.+?): ` part: at least one character of sender, then the first
`": "`. -/
def splitSender : List Char → Option (List Char × List Char)
  | [] => none
  | c :: rest =>
    if c = '\n' then none
    else (findColonSpace rest).map (fun p => (c :: p.1, p.2))

/-- The full message-start regex: on success returns
`(date, time, sender, content)`. -/
def matchHeader (l : List Char) : Option (List Char × List Char × List Char × List Char) :=
  match l with
  | d1 :: d2 :: '/' :: m1 :: m2 :: '/' :: y1 :: y2 :: ' '
      :: h1 :: h2 :: ':' :: n1 :: n2 :: ':' :: s1 :: s2 :: ' ' :: rest =>
    if d1.isDigit && d2.isDigit && m1.isDigit && m2.isDigit && y1.isDigit && y2.isDigit &&
        h1.isDigit && h2.isDigit && n1.isDigit && n2.isDigit && s1.isDigit && s2.isDigit then
      match splitSender rest with
      | some (snd, cnt) =>
        if cnt.contains '\n' then none
        else some ([d1, d2, '/', m1, m2, '/', y1, y2],
                   [h1, h2, ':', n1, n2, ':', s1, s2], snd, cnt)
      | none => none
    else none
  | _ => none

/-- One parsed message before timestamp derivation: the dict built by the
parsing loop (`linha_original`, `data`, `hora`, `remetente`,
`conteudo`). -/
structure Msg where
  linha_original : Nat
  data : List Char
  hora : List Char
  remetente : List Char
  conteudo : List Char
  deriving DecidableEq, Repr

/-- The parsing loop of `parse_to_dataframe`: on a header line, flush the
open message and start a new one; on a non-header line, append
`'\n' + line` to the open message's content, or discard the line if no
message is open yet; at end of input flush the open message.  `n` is the
1-based line number (`enumerate(lines, start=1)`). -/
def parseLoop : Nat → Option Msg → List (List Char) → List Msg
  | _, cur, [] => cur.toList
  | n, cur, l :: ls =>
    match matchHeader l with
    | some (d, t, snd, cnt) =>
      cur.toList ++ parseLoop (n + 1) (some ⟨n, d, t, snd, cnt⟩) ls
    | none =>
      match cur with
      | some m =>
        parseLoop (n + 1) (some { m with conteudo := m.conteudo ++ '\n' :: l }) ls
      | none => parseLoop (n + 1) none ls

/-- The lines seen by the parser: `readlines()` then `line.rstrip('\n')`
on each. -/
def parsedLines (content : List Char) : List (List Char) :=
  (pyReadlines content).map rstripNL

/-- The `messages` list built by `parse_to_dataframe` before the
DataFrame/timestamp phase. -/
def parse_to_messages (content : List Char) : List Msg :=
  parseLoop 1 none (parsedLines content)

/-- A `datetime` value as produced by
`pd.to_datetime(data + ' ' + hora, format='%d/%m/%y %H:%M:%S')`. -/
structure Timestamp where
  year : Nat
  month : Nat
  day : Nat
  hour : Nat
  minute : Nat
  second : Nat
  deriving DecidableEq, Repr

def toDigit (c : Char) : Nat := c.toNat - 48

def twoDigits (a b : Char) : Nat := 10 * toDigit a + toDigit b

def isLeapYear (y : Nat) : Bool :=
  y % 4 = 0 && (!(y % 100 = 0) || y % 400 = 0)

def daysInMonth (y m : Nat) : Nat :=
  if m = 2 then (if isLeapYear y then 29 else 28)
  else if m = 4 || m = 6 || m = 9 || m = 11 then 30
  else 31

/-- Strict `%d/%m/%y %H:%M:%S` parsing: two zero-padded digits each, `%y`
mapping 00-68 to 20xx and 69-99 to 19xx (Python's POSIX rule), and
calendar validation; `none` models the `ValueError` pandas raises. -/
def parseTimestamp (data hora : List Char) : Option Timestamp :=
  match data, hora with
  | [d1, d2, '/', m1, m2, '/', y1, y2], [h1, h2, ':', n1, n2, ':', s1, s2] =>
    if d1.isDigit && d2.isDigit && m1.isDigit && m2.isDigit && y1.isDigit && y2.isDigit &&
        h1.isDigit && h2.isDigit && n1.isDigit && n2.isDigit && s1.isDigit && s2.isDigit then
      let dd := twoDigits d1 d2
      let mm := twoDigits m1 m2
      let yy := twoDigits y1 y2
      let year := if yy ≤ 68 then 2000 + yy else 1900 + yy
      let hh := twoDigits h1 h2
      let mi := twoDigits n1 n2
      let ss := twoDigits s1 s2
      if 1 ≤ mm && mm ≤ 12 && 1 ≤ dd && dd ≤ daysInMonth year mm &&
          hh ≤ 23 && mi ≤ 59 && ss ≤ 59 then
        some ⟨year, mm, dd, hh, mi, ss⟩
      else none
    else none
  | _, _ => none

/-- The pandas exceptions reachable from `parse_to_dataframe`:
`KeyError` (a column such as `'data'` is missing — `pd.DataFrame([])` has
no columns at all) and `ValueError` (`pd.to_datetime` on an unparsable
or invalid date). -/
inductive PandasError where
  | keyError
  | valueError
  deriving DecidableEq, Repr

/-- One row of the wrangling DataFrame.  The parser populates the first
six fields; later stages append columns (the spec's "append-only widening
of the same row").  For an appended column the outer `Option` records
whether the column exists at all (accessing a missing column raises
`KeyError`), and for nullable columns the inner `Option` is the value
(`None` in pandas). -/
structure Row where
  linha_original : Nat
  data : List Char
  hora : List Char
  timestamp : Timestamp
  remetente : List Char
  conteudo : List Char
  tipo_mensagem : Option MessageType := none
  arquivo : Option (Option (List Char)) := none
  arquivo_existe : Option Bool := none
  extensao : Option (Option (List Char)) := none
  tipo_arquivo : Option (Option (List Char)) := none
  arquivo_path : Option (Option (List Char)) := none
  tem_transcricao : Option Bool := none
  transcricao : Option (Option (List Char)) := none
  transcription_status : Option (Option (List Char)) := none
  is_synthetic : Option Bool := none
  conteudo_enriquecido : Option (List Char) := none
  deriving DecidableEq, Repr

/-- `parse_to_dataframe(input_file)`.  With no matching line the
`messages` list is empty, `pd.DataFrame([])` has no columns, and the
timestamp-derivation line `df['data'] + ' ' + df['hora']` raises
`KeyError`; otherwise each row's timestamp is derived, an invalid date
raising `ValueError`. -/
def parse_to_dataframe (content : List Char) : Except PandasError (List Row) :=
  match parse_to_messages content with
  | [] => .error .keyError
  | msgs =>
    msgs.mapM (fun m =>
      match parseTimestamp m.data m.hora with
      | some ts =>
        .ok { linha_original := m.linha_original, data := m.data, hora := m.hora,
              timestamp := ts, remetente := m.remetente, conteudo := m.conteudo }
      | none => .error .valueError)

/-! ### Round-trip reference decomposition

`blocksOf` is specification apparatus for the round-trip claim: it groups
the parser's input lines into blocks — a header line (one that matches the
message-start pattern) together with the non-matching lines that follow
it, in original order, discarding lines before the first header exactly
as the parser does.  It is the "original header line and its continuation
lines" that the claim's re-serialization must reproduce. -/

structure MsgBlock where
  linha_original : Nat
  header : List Char
  conts : List (List Char)
  deriving DecidableEq, Repr

def blocksLoop : Nat → Option MsgBlock → List (List Char) → List MsgBlock
  | _, cur, [] => cur.toList
  | n, cur, l :: ls =>
    match matchHeader l with
    | some _ => cur.toList ++ blocksLoop (n + 1) (some ⟨n, l, []⟩) ls
    | none =>
      match cur with
      | some b => blocksLoop (n + 1) (some { b with conts := b.conts ++ [l] }) ls
      | none => blocksLoop (n + 1) none ls

def blocksOf (content : List Char) : List MsgBlock :=
  blocksLoop 1 none (parsedLines content)

/-- Newline-separated concatenation of continuation lines, as the parser
appends them (`'\n' + line` each). -/
def contJoin (ls : List (List Char)) : List Char :=
  (ls.map (fun l => '\n' :: l)).flatten

/-- Re-serialization of a parsed message back to
`"date time sender: content"`. -/
def serializeMsg (m : Msg) : List Char :=
  m.data ++ ' ' :: m.hora ++ ' ' :: m.remetente ++ ':' :: ' ' :: m.conteudo

/-- The full original text of a block: header line followed by its
continuation lines, newline-separated. -/
def blockText (b : MsgBlock) : List Char :=
  b.header ++ contJoin b.conts

/-- The round-trip correspondence between a parsed message and the block
of original lines it came from: same 1-based header line number; the
message's date, time, sender and first-line content re-serialize to the
original header line exactly; the continuation lines are losslessly
concatenated, newline-separated and in order, into the message's content;
hence serializing the whole message reproduces the whole block. -/
def RoundTripRel (m : Msg) (b : MsgBlock) : Prop :=
  m.linha_original = b.linha_original
  ∧ serializeMsg m = blockText b
  ∧ ∃ c0,
      matchHeader b.header = some (m.data, m.hora, m.remetente, c0)
      ∧ m.data ++ ' ' :: m.hora ++ ' ' :: m.remetente ++ ':' :: ' ' :: c0 = b.header
      ∧ m.conteudo = c0 ++ contJoin b.conts

/-! ## Media linker (`src/wrangling.py`, phases 2-3) -/

def pyUpper (s : List Char) : List Char := s.map Char.toUpper

/-- Python `str.split(sep)` for a one-character separator: splits at every
occurrence, keeping empty segments. -/
def splitOnCharAux (sep : Char) (acc : List Char) : List Char → List (List Char)
  | [] => [acc.reverse]
  | c :: rest =>
    if c = sep then acc.reverse :: splitOnCharAux sep [] rest
    else splitOnCharAux sep (c :: acc) rest

def splitOnChar (sep : Char) (s : List Char) : List (List Char) :=
  splitOnCharAux sep [] s

/-- `pathlib.Path(name).suffix` for a plain file name: `name[i:]` for the
last dot index `i` when `0 < i < len(name) - 1`, else the empty string. -/
def pathSuffix (name : List Char) : List Char :=
  let revSuff := name.reverse.takeWhile (fun c => !(c = '.'))
  if revSuff.length = name.length then []
  else if revSuff.length = 0 then []
  else if revSuff.length + 1 = name.length then []
  else '.' :: revSuff.reverse

/-- `pathlib.Path(p).name`: the part after the last `/`. -/
def basename (p : List Char) : List Char :=
  (p.reverse.takeWhile (fun c => !(c = '/'))).reverse

/-- `str(media_dir / name)` for a normalized directory path and a relative
file name (the only shapes produced by a directory scan). -/
def joinPath (dir name : List Char) : List Char := dir ++ '/' :: name

/-- Scan of the group `(.+?)` of `<attached:\s*(.+?)>` up to the first
`>`; `.` matches no newline. -/
def scanGt : List Char → Option (List Char)
  | [] => none
  | '>' :: _ => some []
  | '\n' :: _ => none
  | c :: rest => (scanGt rest).map (c :: ·)

/-- The `(.+?)>` part: at least one non-newline character, then up to the
first `>`. -/
def tryAttachContent : List Char → Option (List Char)
  | [] => none
  | c :: r => if c = '\n' then none else (scanGt r).map (c :: ·)

/-- Backtracking over the greedy `\s*`: try the longest whitespace run
first, then shorter ones. -/
def wsBacktrack (rest : List Char) : Nat → Option (List Char)
  | 0 => tryAttachContent rest
  | k + 1 => tryAttachContent (rest.drop (k + 1)) <|> wsBacktrack rest k

def matchAfterAttach (rest : List Char) : Option (List Char) :=
  wsBacktrack rest (rest.takeWhile isPyWs).length

def extractAttachLoop : List Char → Option (List Char)
  | [] => none
  | s@(_ :: rest) =>
    if "<attached:".data.isPrefixOf s then
      match matchAfterAttach (s.drop 10) with
      | some g => some g
      | none => extractAttachLoop rest
    else extractAttachLoop rest

/-- `extract_filename_from_content`: `re.search(r'<attached:\s*(.+?)>',
content)`, earliest match wins, `None` when absent. -/
def extract_filename_from_content (content : List Char) : Option (List Char) :=
  extractAttachLoop content

/-- `extract_media_type_from_filename`: the second hyphen-delimited
segment, uppercased; `None` for a falsy input or fewer than 2 segments. -/
def extract_media_type_from_filename (filename : Option (List Char)) : Option (List Char) :=
  match filename with
  | none => none
  | some f =>
    if f.isEmpty then none
    else
      let parts := splitOnChar '-' f
      if 2 ≤ parts.length then some (pyUpper (parts.getD 1 [])) else none

/-- One entry of the media directory as seen by `Path.iterdir()`. -/
structure DirEntry where
  name : List Char
  isFile : Bool
  size_bytes : Nat
  deriving DecidableEq, Repr

/-- The file system visible to the media linker: the existing directories
(by path) with their entries. -/
structure MediaFS where
  dirs : List (List Char × List DirEntry)
  deriving DecidableEq, Repr

/-- One row of the media inventory DataFrame. -/
structure InventoryRow where
  filename : List Char
  path : List Char
  extension : List Char
  size_bytes : Nat
  media_type : Option (List Char)
  deriving DecidableEq, Repr

/-- `inventory_media_files(media_dir)`: if the directory does not exist,
print a warning and return an *empty DataFrame* (no exception); otherwise
the non-recursive listing of its regular files. -/
def inventory_media_files (fs : MediaFS) (media_dir : List Char) : List InventoryRow :=
  match fs.dirs.find? (fun p => p.1 == media_dir) with
  | none => []
  | some p =>
    (p.2.filter (·.isFile)).map (fun e =>
      { filename := e.name, path := joinPath media_dir e.name,
        extension := pyLower (pathSuffix e.name), size_bytes := e.size_bytes,
        media_type := extract_media_type_from_filename (some e.name) })

/-- The membership lambda `x in existing_files if x else False`: a falsy
filename (`None` or `""`) is treated as absent. -/
def linkExists (existing : List (List Char)) : Option (List Char) → Bool
  | none => false
  | some f => if f.isEmpty then false else existing.contains f

/-- The extension lambda `Path(x).suffix.lower() if x else None`. -/
def linkExt : Option (List Char) → Option (List Char)
  | none => none
  | some f => if f.isEmpty then none else some (pyLower (pathSuffix f))

/-- One row of `link_media_to_messages`: the four appended columns derived
from the extracted attachment filename; the path is set only when the
file exists. -/
def linkRow (existing : List (List Char)) (media_dir : List Char) (r : Row) : Row :=
  { r with
    arquivo := some (extract_filename_from_content r.conteudo),
    arquivo_existe := some (linkExists existing (extract_filename_from_content r.conteudo)),
    extensao := some (linkExt (extract_filename_from_content r.conteudo)),
    tipo_arquivo :=
      some (extract_media_type_from_filename (extract_filename_from_content r.conteudo)),
    arquivo_path :=
      some (if linkExists existing (extract_filename_from_content r.conteudo) then
        some (joinPath media_dir ((extract_filename_from_content r.conteudo).getD []))
      else none) }

/-- `link_media_to_messages(df, media_dir)`: extract the attachment
filename per message, test membership in the scanned filename set, and
derive extension / kind / full path. -/
def link_media_to_messages (fs : MediaFS) (media_dir : List Char) (df : List Row) :
    List Row :=
  df.map (linkRow ((inventory_media_files fs media_dir).map (·.filename)) media_dir)

/-! ## Classification, transcription merge, enrichment, export
(`src/wrangling.py`, phases 2, 4, 5, 6) -/

/-- `add_message_classification`: append the `tipo_mensagem` column. -/
def add_message_classification (df : List Row) : List Row :=
  df.map (fun r => { r with tipo_mensagem := some (classify_message_type r.conteudo) })

/-- One row of the external transcriptions CSV (columns `file_path`,
`transcription`, `transcription_status`, `is_synthetic`; nullable text
columns are `Option`). -/
structure TransCsvRow where
  file_path : List Char
  transcription : Option (List Char)
  transcription_status : Option (List Char)
  is_synthetic : Bool
  deriving DecidableEq, Repr

/-- A loaded transcription row, keyed by the basename of `file_path`
(the `df['filename']` column added by `load_transcriptions`). -/
structure TransLoadedRow where
  filename : List Char
  transcription : Option (List Char)
  transcription_status : Option (List Char)
  is_synthetic : Bool
  deriving DecidableEq, Repr

/-- `load_transcriptions` on an existing CSV: derive `filename` from
`file_path`. -/
def load_transcriptions (rows : List TransCsvRow) : List TransLoadedRow :=
  rows.map (fun r =>
    { filename := basename r.file_path, transcription := r.transcription,
      transcription_status := r.transcription_status, is_synthetic := r.is_synthetic })

/-- The no-transcription column values
(`tem_transcricao=False`, nulls, `is_synthetic=False`). -/
def setNoTransRow (r : Row) : Row :=
  { r with tem_transcricao := some false, transcricao := some none,
           transcription_status := some none, is_synthetic := some false }

/-- `merge_transcriptions`: with an empty transcription table every row
gets the no-transcription defaults; otherwise the `filename`-keyed lookup
is applied to `df['arquivo']` (raising `KeyError` when the media step has
not added that column; the lookup assumes unique filenames, as the data
model declares — `to_dict('index')` raises on duplicates). -/
def merge_transcriptions (df : List Row) (trans : List TransLoadedRow) :
    Except PandasError (List Row) :=
  if trans.isEmpty then .ok (df.map setNoTransRow)
  else if df.all (fun r => r.arquivo.isSome) then
    .ok (df.map (fun r =>
      match r.arquivo.getD none with
      | none => setNoTransRow r
      | some f =>
        if f.isEmpty then setNoTransRow r
        else
          match trans.find? (fun t => t.filename == f) with
          | none => setNoTransRow r
          | some t =>
            { r with tem_transcricao := some true, transcricao := some t.transcription,
                     transcription_status := some t.transcription_status,
                     is_synthetic := some t.is_synthetic }))
  else .error .keyError

/-- The `build_enriched_content` row function of `enrich_content`:
without a (non-null) transcription the content is unchanged; otherwise
`"[{tipo} TRANSCRITO{' - ÓRFÃO' if synthetic}] {text}\n[Arquivo: {file}]"`.
`row.get` yields the defaults `'MEDIA'` / `''` / `False` when a column is
missing, and a present-but-`None` value is formatted as `"None"` by the
f-string. -/
def build_enriched_content (r : Row) : List Char :=
  match r.tem_transcricao with
  | none => r.conteudo
  | some false => r.conteudo
  | some true =>
    match r.transcricao with
    | none => r.conteudo
    | some none => r.conteudo
    | some (some txt) =>
      let tipo := match r.tipo_arquivo with
        | none => "MEDIA".data
        | some none => "None".data
        | some (some t) => t
      let arq := match r.arquivo with
        | none => "".data
        | some none => "None".data
        | some (some f) => f
      let synth := r.is_synthetic.getD false
      if synth then
        "[".data ++ tipo ++ " TRANSCRITO - ÓRFÃO] ".data ++ txt
          ++ "\n[Arquivo: ".data ++ arq ++ "]".data
      else
        "[".data ++ tipo ++ " TRANSCRITO] ".data ++ txt
          ++ "\n[Arquivo: ".data ++ arq ++ "]".data

/-- `enrich_content`: append the `conteudo_enriquecido` column. -/
def enrich_content (df : List Row) : List Row :=
  df.map (fun r => { r with conteudo_enriquecido := some (build_enriched_content r) })

/-- `df['remetente'].unique()`: distinct values in order of first
occurrence. -/
def uniqueFirstAux (seen : List (List Char)) : List (List Char) → List (List Char)
  | [] => []
  | x :: xs =>
    if seen.contains x then uniqueFirstAux seen xs
    else x :: uniqueFirstAux (x :: seen) xs

def uniqueFirst (l : List (List Char)) : List (List Char) := uniqueFirstAux [] l

def pad2 (n : Nat) : List Char :=
  (if n < 10 then ['0'] else []) ++ Nat.toDigits 10 n

/-- `timestamp.strftime('%d/%m/%y')`. -/
def strfDate (t : Timestamp) : List Char :=
  pad2 t.day ++ '/' :: pad2 t.month ++ '/' :: pad2 (t.year % 100)

/-- `timestamp.strftime('%H:%M:%S')`. -/
def strfTime (t : Timestamp) : List Char :=
  pad2 t.hour ++ ':' :: pad2 t.minute ++ ':' :: pad2 t.second

/-- The content column used by the corpus export: the enriched content
when requested and the column exists, else the raw content. -/
def corpusContent (useEnriched hasCol : Bool) (r : Row) : List Char :=
  if useEnriched && hasCol then r.conteudo_enriquecido.getD r.conteudo else r.conteudo

def chatLine (useEnriched hasCol : Bool) (r : Row) : List Char :=
  strfDate r.timestamp ++ ' ' :: strfTime r.timestamp ++ ' ' :: r.remetente
    ++ ':' :: ' ' :: corpusContent useEnriched hasCol r ++ ['\n']

/-- `export_corpus_files`: the complete chat, the content-only corpus, and
per-sender variants for every distinct sender found in the data, keyed by
output file stem (directory placement is I/O out of scope). -/
def export_corpus_files (df : List Row) (useEnriched : Bool) :
    List (List Char × List Char) :=
  let hasCol := df.all (fun r => r.conteudo_enriquecido.isSome)
  let senders := uniqueFirst (df.map (·.remetente))
  [("chat_complete".data, (df.map (chatLine useEnriched hasCol)).flatten),
   ("corpus_full".data,
      (df.map (fun r => corpusContent useEnriched hasCol r ++ ['\n'])).flatten)]
  ++ (senders.map (fun snd =>
      ("chat_".data ++ pyLower snd,
        ((df.filter (fun r => r.remetente == snd)).map
          (chatLine useEnriched hasCol)).flatten)))
  ++ (senders.map (fun snd =>
      ("corpus_".data ++ pyLower snd,
        ((df.filter (fun r => r.remetente == snd)).map
          (fun r => corpusContent useEnriched hasCol r ++ ['\n'])).flatten)))

/-- The output keys produced by `export_optimized` with the pipeline's
format list `['csv_full', 'csv_core', 'parquet']`; parquet is skipped when
pyarrow is unavailable.  The tabular serialization itself is declared out
of scope by the spec. -/
def export_optimized_keys (pyarrow : Bool) : List (List Char) :=
  ["csv_full".data, "csv_core".data] ++ (if pyarrow then ["parquet".data] else [])

/-! ## Wrangling pipeline executor (`src/wrangling.py`,
`run_wrangling_pipeline`) -/

/-- The wrangling step registry ids, in registration order (the dict's
name/description metadata enters no claim). -/
def WRANGLING_STEPS : List String :=
  ["parse", "classify", "media", "transcriptions", "enrich", "export"]

/-- The exceptions a wrangling run can raise: the id-validation
`ValueError` listing the invalid ids, a pandas error propagated from a
step, and the `AttributeError`/`TypeError` raised when a step other than
`parse` runs first and receives `df = None`. -/
inductive WranglingError where
  | invalidSteps (ids : List String)
  | pandas (e : PandasError)
  | noneTypeError
  deriving DecidableEq, Repr

structure WranglingResult where
  df : Option (List Row)
  outputs : List (List Char)
  order : List String
  deriving DecidableEq, Repr

/-- One dispatch of the `for step_id in order` loop body. -/
def wranglingStep (content : List Char) (fs : MediaFS) (media_dir : Option (List Char))
    (transcription_file : Option (Option (List TransCsvRow))) (pyarrow : Bool)
    (df : Option (List Row)) (outputs : List (List Char)) (sid : String) :
    Except WranglingError (Option (List Row) × List (List Char)) :=
  if sid = "parse" then
    match parse_to_dataframe content with
    | .ok d => .ok (some d, outputs)
    | .error e => .error (.pandas e)
  else if sid = "classify" then
    match df with
    | none => .error .noneTypeError
    | some d => .ok (some (add_message_classification d), outputs)
  else if sid = "media" then
    match media_dir with
    | some dir =>
      match df with
      | none => .error .noneTypeError
      | some d => .ok (some (link_media_to_messages fs dir d), outputs)
    | none => .ok (df, outputs)
  else if sid = "transcriptions" then
    match df with
    | none => .error .noneTypeError
    | some d =>
      match transcription_file with
      | some (some rows) =>
        match merge_transcriptions d (load_transcriptions rows) with
        | .ok d' => .ok (some d', outputs)
        | .error e => .error (.pandas e)
      | some none => .ok (some (d.map setNoTransRow), outputs)
      | none => .ok (some (d.map setNoTransRow), outputs)
  else if sid = "enrich" then
    match df with
    | none => .error .noneTypeError
    | some d => .ok (some (enrich_content d), outputs)
  else if sid = "export" then
    match df with
    | none => .error .noneTypeError
    | some d =>
      .ok (some d, outputs ++ export_optimized_keys pyarrow
            ++ (export_corpus_files d true).map (·.1))
  else .ok (df, outputs)

def runWranglingSteps (content : List Char) (fs : MediaFS) (media_dir : Option (List Char))
    (transcription_file : Option (Option (List TransCsvRow))) (pyarrow : Bool) :
    List String → Option (List Row) → List (List Char) →
    Except WranglingError (Option (List Row) × List (List Char))
  | [], df, outputs => .ok (df, outputs)
  | sid :: rest, df, outputs =>
    match wranglingStep content fs media_dir transcription_file pyarrow df outputs sid with
    | .ok (df', outputs') =>
      runWranglingSteps content fs media_dir transcription_file pyarrow rest df' outputs'
    | .error e => .error e

/-- `run_wrangling_pipeline(order, input_file, output_dir, media_dir,
transcription_file)`: validate the step ids against `WRANGLING_STEPS`
(raising `ValueError` with the invalid ids before any step runs), then
execute the steps in order (the `stats` dict and console output enter no
claim and are omitted). -/
def run_wrangling_pipeline (order : List String) (content : List Char) (fs : MediaFS)
    (media_dir : Option (List Char)) (transcription_file : Option (Option (List TransCsvRow)))
    (pyarrow : Bool) : Except WranglingError WranglingResult :=
  if (order.filter (fun sid => !(WRANGLING_STEPS.contains sid))).isEmpty then
    match runWranglingSteps content fs media_dir transcription_file pyarrow order none [] with
    | .ok (df, outputs) => .ok { df := df, outputs := outputs, order := order }
    | .error e => .error e
  else .error (.invalidSteps (order.filter (fun sid => !(WRANGLING_STEPS.contains sid))))

/-- A sample parsed row used by concrete witness instantiations. -/
def exRow : Row :=
  { linha_original := 1, data := "01/01/24".data, hora := "10:00:00".data,
    timestamp := ⟨2024, 1, 1, 10, 0, 0⟩, remetente := "P1".data,
    conteudo := "<attached: IMG-AUDIO-0001.opus>".data }

/-! ## Transcription batch producer (`scripts/transcribe_media.py`)

The Groq Whisper call is the spec's opaque external collaborator: it is a
parameter `apiCall : filename → Except error (text, language)` (an
exception or a result; `getattr(result, 'language', 'pt')` is folded into
the payload).  The two output files are fields of an explicit
file-system state, and every file write / delete / API call is recorded
as an event so the temporal claims can be stated over the run's trace. -/

def SUPPORTED_FORMATS : List (List Char) :=
  [".opus".data, ".mp3".data, ".wav".data, ".mp4".data,
   ".m4a".data, ".webm".data, ".mpeg".data, ".mpga".data]

/-- One row of the freshly scanned media list (`file_path` holds the
file's name, as in the script; `full_path`/`size_mb` enter no claim). -/
structure ScanRow where
  file_path : List Char
  media_type : List Char
  deriving DecidableEq, Repr

/-- One row of the transcriptions DataFrame.  `error_message` is modelled
structurally (`ErrMsg`) rather than as Python's formatted string — float
formatting enters no claim; the unused `transcription_confidence` column
is omitted. -/
inductive ErrMsg where
  | notFound
  | tooLarge (size_bytes : Nat)
  | api (e : List Char)
  deriving DecidableEq, Repr

structure TRow where
  file_path : List Char
  transcription : Option (List Char)
  transcription_status : List Char
  transcription_language : Option (List Char)
  is_synthetic : Bool
  error_message : Option ErrMsg
  deriving DecidableEq, Repr

def dfltTRow : TRow :=
  { file_path := [], transcription := none, transcription_status := [],
    transcription_language := none, is_synthetic := false, error_message := none }

/-- The state of the files the script touches: the media directory
(`none` when `MEDIA_DIR` does not exist), the progress file and the
complete file (`none` when absent). -/
structure TranscribeFS where
  mediaDir : Option (List DirEntry)
  progress : Option (List TRow)
  complete : Option (List TRow)
  deriving DecidableEq, Repr

/-- `scan_media_files`: the regular files of the media directory whose
lowercased suffix is a supported format, with the kind taken from the
second hyphen-delimited name segment (lowercased, `'unknown'` when
missing); an absent directory yields the empty list. -/
def scan_media_files (mediaDir : Option (List DirEntry)) : List ScanRow :=
  match mediaDir with
  | none => []
  | some entries =>
    (entries.filter (fun e =>
        e.isFile && SUPPORTED_FORMATS.contains (pyLower (pathSuffix e.name)))).map
      (fun e =>
        { file_path := e.name,
          media_type :=
            if 2 ≤ (splitOnChar '-' e.name).length then
              pyLower ((splitOnChar '-' e.name).getD 1 [])
            else "unknown".data })

/-- The result record of `transcribe_audio`. -/
structure TResult where
  transcription : List Char
  transcription_status : List Char
  transcription_language : Option (List Char)
  error_message : Option ErrMsg
  deriving DecidableEq, Repr

/-- The 25 MB ceiling: `file_size_mb > 25` with
`file_size_mb = size / (1024 * 1024)` in double precision — division by
the power of two 2^20 is exact in binary floating point, so the test is
exactly `size > 25 * 1024 * 1024` bytes. -/
def MAX_FILE_BYTES : Nat := 25 * 1024 * 1024

/-- `transcribe_audio(client, file_path)`: a missing file or an
over-ceiling file yields an error row *without* the API being called
(second component `false`); otherwise the call is made (`true`) and an
exception is caught and recorded as `status='error'` with its message. -/
def transcribe_audio (fileInfo : Option Nat)
    (apiResult : Except (List Char) (List Char × List Char)) : TResult × Bool :=
  match fileInfo with
  | none =>
    ({ transcription := [], transcription_status := "error".data,
       transcription_language := none, error_message := some .notFound }, false)
  | some size =>
    if MAX_FILE_BYTES < size then
      ({ transcription := [], transcription_status := "error".data,
         transcription_language := none, error_message := some (.tooLarge size) }, false)
    else
      match apiResult with
      | .ok (text, lang) =>
        ({ transcription := pyStrip text, transcription_status := "completed".data,
           transcription_language := some lang, error_message := none }, true)
      | .error e =>
        ({ transcription := [], transcription_status := "error".data,
           transcription_language := none, error_message := some (.api e) }, true)

/-- `(MEDIA_DIR / name).exists()` and `.stat().st_size`. -/
def fileSize (mediaDir : Option (List DirEntry)) (name : List Char) : Option Nat :=
  match mediaDir with
  | none => none
  | some es => (es.find? (fun e => e.name == name)).map (·.size_bytes)

/-- `load_or_create_dataframe`: complete file first, then progress file,
else a fresh all-`pending` table from the scan; the boolean is
`is_complete`. -/
def load_or_create_dataframe (fs : TranscribeFS) (media_files : List ScanRow) :
    List TRow × Bool :=
  match fs.complete with
  | some rows => (rows, true)
  | none =>
    match fs.progress with
    | some rows => (rows, false)
    | none =>
      (media_files.map (fun sr =>
        { file_path := sr.file_path, transcription := none,
          transcription_status := "pending".data, transcription_language := none,
          is_synthetic := false, error_message := none }), false)

/-- `df_pending.index`: the positions of the rows whose status is
`'pending'`, captured before the loop starts. -/
def pendingIdxs (df : List TRow) : List Nat :=
  (List.range df.length).filter
    (fun i => (df.getD i dfltTRow).transcription_status == "pending".data)

/-- The observable actions of one run, in order: a row being processed,
an actual API call, a progress-file write, the complete-file write, the
progress-file deletion. -/
inductive TEvent where
  | processRow (idx : Nat) (name : List Char)
  | callApi (name : List Char)
  | saveProgress (rows : List TRow)
  | saveComplete (rows : List TRow)
  | deleteProgress
  deriving DecidableEq, Repr

/-- The `transcribe_audio` call for row `i` of the table. -/
def rowResult (mediaDir : Option (List DirEntry))
    (apiCall : List Char → Except (List Char) (List Char × List Char))
    (df : List TRow) (i : Nat) : TResult × Bool :=
  transcribe_audio (fileSize mediaDir (df.getD i dfltTRow).file_path)
    (apiCall (df.getD i dfltTRow).file_path)

/-- The `df.at[idx, ...] = result[...]` updates of one loop iteration:
the four result columns are written back into row `i`. -/
def stepDf (mediaDir : Option (List DirEntry))
    (apiCall : List Char → Except (List Char) (List Char × List Char))
    (df : List TRow) (i : Nat) : List TRow :=
  df.set i
    { df.getD i dfltTRow with
      transcription := some (rowResult mediaDir apiCall df i).1.transcription,
      transcription_status := (rowResult mediaDir apiCall df i).1.transcription_status,
      transcription_language := (rowResult mediaDir apiCall df i).1.transcription_language,
      error_message := (rowResult mediaDir apiCall df i).1.error_message }

/-- The events of one loop iteration: the row is processed, the API is
called unless the file was missing or too large, and after every 10th
processed row the whole table is saved to the progress file. -/
def stepEvs (mediaDir : Option (List DirEntry))
    (apiCall : List Char → Except (List Char) (List Char × List Char))
    (df : List TRow) (i processed : Nat) (evs : List TEvent) : List TEvent :=
  (evs ++ [.processRow i (df.getD i dfltTRow).file_path]
    ++ (if (rowResult mediaDir apiCall df i).2 then
          [.callApi (df.getD i dfltTRow).file_path] else []))
  ++ (if (processed + 1) % 10 = 0 then
        [.saveProgress (stepDf mediaDir apiCall df i)] else [])

/-- The `for idx in df_pending.index` loop. -/
def processLoop (mediaDir : Option (List DirEntry))
    (apiCall : List Char → Except (List Char) (List Char × List Char)) :
    List Nat → List TRow → Nat → List TEvent → List TRow × Nat × List TEvent
  | [], df, processed, evs => (df, processed, evs)
  | i :: is, df, processed, evs =>
    processLoop mediaDir apiCall is (stepDf mediaDir apiCall df i) (processed + 1)
      (stepEvs mediaDir apiCall df i processed evs)

/-- The tail of a full (non-short-circuited) run: process every pending
row, write the complete file, and delete the progress file if it exists —
it exists at that point iff it existed before the run or the loop saved
it, i.e. at least 10 rows were processed. -/
def mainProcess (fs : TranscribeFS)
    (apiCall : List Char → Except (List Char) (List Char × List Char))
    (df : List TRow) : TranscribeFS × List TEvent :=
  ({ fs with
     complete := some (processLoop fs.mediaDir apiCall (pendingIdxs df) df 0 []).1,
     progress := none },
   (processLoop fs.mediaDir apiCall (pendingIdxs df) df 0 []).2.2
     ++ [.saveComplete (processLoop fs.mediaDir apiCall (pendingIdxs df) df 0 []).1]
     ++ (if fs.progress.isSome || decide (10 ≤ (pendingIdxs df).length) then
          [.deleteProgress] else []))

/-- `main()`: scan; bail out on an empty scan; load or create the table;
short-circuit when the complete file exists or nothing is pending;
otherwise run the processing tail. -/
def transcribe_main (fs : TranscribeFS)
    (apiCall : List Char → Except (List Char) (List Char × List Char)) :
    TranscribeFS × List TEvent :=
  if (scan_media_files fs.mediaDir).isEmpty then (fs, [])
  else if (load_or_create_dataframe fs (scan_media_files fs.mediaDir)).2
      || (pendingIdxs (load_or_create_dataframe fs (scan_media_files fs.mediaDir)).1).length
          = 0 then
    (fs, [])
  else
    mainProcess fs apiCall (load_or_create_dataframe fs (scan_media_files fs.mediaDir)).1

/-- The `(index, filename)` pairs of the rows a trace processed. -/
def processRowEvents : List TEvent → List (Nat × List Char)
  | [] => []
  | .processRow i n :: rest => (i, n) :: processRowEvents rest
  | _ :: rest => processRowEvents rest

/-- How many progress-file writes a trace contains. -/
def countSaveProgress (evs : List TEvent) : Nat :=
  (evs.filter (fun e => match e with | .saveProgress _ => true | _ => false)).length

/-- Witness fixtures: a media directory with one small audio file, and
progress-table rows in `pending` / `completed` states. -/
def exMediaDir : List DirEntry := [⟨"a-audio-1.opus".data, true, 100⟩]

def pendRowA : TRow :=
  { dfltTRow with
    file_path := "a-audio-1.opus".data,
    transcription_status := "pending".data }

def compRowB : TRow :=
  { dfltTRow with
    file_path := "b-audio-2.opus".data,
    transcription := some "done".data,
    transcription_status := "completed".data }

/-! ## C2 theorems: `normalize_whitespace` -/

/-- Whether a text contains two adjacent spaces (an uncollapsed interior
run). -/
def hasDoubleSpace : List Char → Bool
  | [] => false
  | [_] => false
  | c1 :: c2 :: rest => (c1 = ' ' && c2 = ' ') || hasDoubleSpace (c2 :: rest)

lemma dropWhile_eq_nil_of_all {p : Char → Bool} {l : List Char}
    (h : l.all p = true) : l.dropWhile p = [] :=
  List.dropWhile_eq_nil_iff.mpr (by simpa using h)

lemma pyRstrip_of_all_ws {l : List Char} (h : l.all isPyWs = true) :
    pyRstrip l = [] := by
  unfold pyRstrip
  rw [dropWhile_eq_nil_of_all (by simpa using h)]
  rfl

lemma pyRstrip_append_of_any {a b : List Char}
    (hb : b.any (fun c => !isPyWs c) = true) :
    pyRstrip (a ++ b) = a ++ pyRstrip b := by
  unfold pyRstrip
  rw [List.reverse_append, List.dropWhile_append]
  have hne : ¬(b.reverse.dropWhile isPyWs).isEmpty = true := by
    intro hemp
    rw [List.isEmpty_iff] at hemp
    have := List.dropWhile_eq_nil_iff.mp hemp
    simp only [List.any_eq_true] at hb
    obtain ⟨c, hc, hcw⟩ := hb
    have := this c (by simpa using hc)
    simp_all
  rw [if_neg hne, List.reverse_append, List.reverse_reverse]

lemma pyRstrip_cons_of_head {c : Char} {d : List Char}
    (hc : isPyWs c = false) : pyRstrip (c :: d) = c :: pyRstrip d := by
  by_cases hd : d.any (fun x => !isPyWs x) = true
  · have := pyRstrip_append_of_any (a := [c]) (b := d) hd
    simpa using this
  · have hall : d.all isPyWs = true := by
      simp only [List.any_eq_true, not_exists, not_and] at hd
      simp only [List.all_eq_true]
      intro x hx
      have := hd x hx
      simpa using this
    rw [pyRstrip_of_all_ws hall]
    show pyRstrip ([c] ++ d) = [c]
    unfold pyRstrip
    rw [List.reverse_append, List.dropWhile_append,
        dropWhile_eq_nil_of_all (by simpa using hall)]
    simp [List.dropWhile, hc]

lemma collapseSpaces_cons_of_ne {c : Char} (y : List Char) (h : ¬(c = ' ')) :
    collapseSpaces (c :: y) = c :: collapseSpaces y := by
  cases y <;> simp [collapseSpaces, h]

lemma collapseSpaces_ne_nil : ∀ {y : List Char}, y ≠ [] → collapseSpaces y ≠ []
  | [], h => absurd rfl h
  | [c], _ => by simp [collapseSpaces]
  | c1 :: c2 :: r, _ => by
    show collapseSpaces (c1 :: c2 :: r) ≠ []
    unfold collapseSpaces
    split
    · exact collapseSpaces_ne_nil (by simp)
    · simp

lemma hasDoubleSpace_collapseSpaces : ∀ y : List Char,
    hasDoubleSpace (collapseSpaces y) = false
  | [] => rfl
  | [c] => by simp [collapseSpaces, hasDoubleSpace]
  | c1 :: c2 :: r => by
    have ih := hasDoubleSpace_collapseSpaces (c2 :: r)
    show hasDoubleSpace (collapseSpaces (c1 :: c2 :: r)) = false
    unfold collapseSpaces
    split
    · exact ih
    · rename_i hcond
      by_cases h1 : c1 = ' '
      · have h2 : ¬(c2 = ' ') := by
          intro h2
          exact hcond (by simp [h1, h2])
        rw [collapseSpaces_cons_of_ne r h2] at ih ⊢
        simpa [hasDoubleSpace, h2] using ih
      · cases hz : collapseSpaces (c2 :: r) with
        | nil => simp [hasDoubleSpace]
        | cons z1 zr =>
          rw [hz] at ih
          simpa [hasDoubleSpace, h1] using ih

lemma mem_of_mem_collapseSpaces : ∀ {y : List Char} {x : Char},
    x ∈ collapseSpaces y → x ∈ y
  | [], x, h => by simpa [collapseSpaces] using h
  | [c], x, h => by simpa [collapseSpaces] using h
  | c1 :: c2 :: r, x, h => by
    rw [show collapseSpaces (c1 :: c2 :: r)
        = if c1 = ' ' && c2 = ' ' then collapseSpaces (c2 :: r)
          else c1 :: collapseSpaces (c2 :: r) from rfl] at h
    split at h
    · exact List.mem_cons_of_mem _ (mem_of_mem_collapseSpaces h)
    · rcases List.mem_cons.mp h with h' | h'
      · simp [h']
      · exact List.mem_cons_of_mem _ (mem_of_mem_collapseSpaces h')

lemma collapseSpaces_append_single {c : Char} (h : ¬(c = ' ')) :
    ∀ w : List Char, collapseSpaces (w ++ [c]) = collapseSpaces w ++ [c]
  | [] => rfl
  | [a] => by
    show collapseSpaces [a, c] = collapseSpaces [a] ++ [c]
    unfold collapseSpaces
    simp [h, collapseSpaces]
  | a :: b :: r => by
    have ih := collapseSpaces_append_single h (b :: r)
    show collapseSpaces (a :: b :: (r ++ [c])) = collapseSpaces (a :: b :: r) ++ [c]
    unfold collapseSpaces
    split <;> rename_i hcond
    · exact ih
    · rw [show b :: (r ++ [c]) = (b :: r) ++ [c] from rfl, ih]
      simp

lemma collapseSpaces_getLast? : ∀ y : List Char,
    (collapseSpaces y).getLast? = y.getLast?
  | [] => rfl
  | [c] => rfl
  | c1 :: c2 :: r => by
    have ih := collapseSpaces_getLast? (c2 :: r)
    show (collapseSpaces (c1 :: c2 :: r)).getLast? = _
    unfold collapseSpaces
    split
    · rw [ih, List.getLast?_cons_cons]
    · cases hz : collapseSpaces (c2 :: r) with
      | nil => exact absurd hz (collapseSpaces_ne_nil (by simp))
      | cons z1 zr =>
        rw [hz] at ih
        rw [List.getLast?_cons_cons, ih, List.getLast?_cons_cons]

lemma head_dropWhile_false {p : Char → Bool} :
    ∀ {l : List Char} {c : Char} {r : List Char},
      l.dropWhile p = c :: r → p c = false := by
  intro l
  induction l with
  | nil => intro c r h; exact absurd h (by simp)
  | cons a l ih =>
    intro c r h
    rw [List.dropWhile_cons] at h
    split at h
    · exact ih h
    · cases h; simp_all

lemma takeWhile_append_of_all {p : Char → Bool} :
    ∀ {t : List Char}, t.all p = true → ∀ r, (t ++ r).takeWhile p = t ++ r.takeWhile p := by
  intro t
  induction t with
  | nil => intro _ r; rfl
  | cons a t ih =>
    intro h r
    simp only [List.all_cons, Bool.and_eq_true] at h
    simp [List.takeWhile_cons, h.1, ih h.2 r]

lemma dropWhile_append_of_all {p : Char → Bool} :
    ∀ {t : List Char}, t.all p = true → ∀ r, (t ++ r).dropWhile p = r.dropWhile p := by
  intro t
  induction t with
  | nil => intro _ r; rfl
  | cons a t ih =>
    intro h r
    simp only [List.all_cons, Bool.and_eq_true] at h
    simp [List.dropWhile_cons, h.1, ih h.2 r]

lemma tabToSpace_of_not_ws {c : Char} (hc : isPyWs c = false) : tabToSpace c = c := by
  unfold tabToSpace
  rw [if_neg]
  intro h'
  subst h'
  simp [isPyWs] at hc

lemma ne_space_of_not_ws {c : Char} (hc : isPyWs c = false) : ¬(c = ' ') := by
  intro h'
  subst h'
  simp [isPyWs] at hc

lemma pyRstrip_append_newline {X : List Char}
    (h : ∃ x, X.getLast? = some x ∧ isPyWs x = false) :
    pyRstrip (X ++ ['\n']) = X := by
  obtain ⟨x, hx, hxw⟩ := h
  unfold pyRstrip
  rw [List.reverse_append]
  have hrev : X.reverse.head? = some x := by rw [List.head?_reverse, hx]
  cases hXr : X.reverse with
  | nil => rw [hXr] at hrev; exact absurd hrev (by simp)
  | cons y ys =>
    rw [hXr] at hrev
    have : y = x := by simpa using hrev
    subst this
    show (List.dropWhile isPyWs ('\n' :: y :: ys)).reverse = X
    rw [List.dropWhile_cons_of_pos (by simp [isPyWs]),
        List.dropWhile_cons_of_neg (by simp [hxw]), ← hXr, List.reverse_reverse]

/-- Zeta-expanded form of `normalize_whitespace_line`. -/
lemma normalize_whitespace_line_eq (line : List Char) :
    normalize_whitespace_line line
      = (pyRstrip line ++ ['\n']).take
          ((pyRstrip line ++ ['\n']).length - (pyLstrip (pyRstrip line ++ ['\n'])).length)
        ++ collapseSpaces (((pyRstrip line ++ ['\n']).drop
          ((pyRstrip line ++ ['\n']).length
            - (pyLstrip (pyRstrip line ++ ['\n'])).length)).map tabToSpace) := rfl

/-- For a line with at least one non-whitespace character,
`normalize_whitespace_line` splits as the original leading-whitespace run
followed by the collapsed, tab-converted body, whose first and last
characters are not whitespace. -/
lemma normLine_main (l : List Char) (h : l.any (fun c => !isPyWs c) = true) :
    ∃ c Z e,
      isPyWs c = false ∧ (c :: Z).getLast? = some e ∧ isPyWs e = false
      ∧ normalize_whitespace_line l
          = l.takeWhile isPyWs ++ collapseSpaces (((c :: Z) ++ ['\n']).map tabToSpace)
      ∧ leadWsRun (normalize_whitespace_line l) = leadWsRun l
      ∧ (normalize_whitespace_line l).drop (leadWsRun (normalize_whitespace_line l))
          = collapseSpaces (((c :: Z) ++ ['\n']).map tabToSpace) := by
  have htall : (l.takeWhile isPyWs).all isPyWs = true := by
    simp only [List.all_eq_true]
    intro x hx
    exact List.mem_takeWhile_imp hx
  have hdne : l.dropWhile isPyWs ≠ [] := by
    intro hnil
    have := List.dropWhile_eq_nil_iff.mp hnil
    simp only [List.any_eq_true] at h
    obtain ⟨x, hxl, hxw⟩ := h
    have := this x hxl
    simp_all
  obtain ⟨c, d, hcd⟩ := List.exists_cons_of_ne_nil hdne
  have hc : isPyWs c = false := head_dropWhile_false hcd
  have hl : l = l.takeWhile isPyWs ++ (c :: d) := by
    conv_lhs => rw [← List.takeWhile_append_dropWhile (p := isPyWs) (l := l)]
    rw [hcd]
  -- pyRstrip keeps the leading run and the head of the body
  have hrs : pyRstrip l = l.takeWhile isPyWs ++ (c :: pyRstrip d) := by
    conv_lhs => rw [hl]
    rw [pyRstrip_append_of_any (by simp [List.any_cons, hc]),
        pyRstrip_cons_of_head hc]
  refine ⟨c, pyRstrip d, ?_⟩
  -- the last character of the body is the last character of pyRstrip l
  have hne2 : c :: pyRstrip d ≠ [] := by simp
  have hlast : (c :: pyRstrip d).getLast? = (pyRstrip l).getLast? := by
    rw [hrs, List.getLast?_append_of_ne_nil _ hne2]
  have hrevh : (pyRstrip l).reverse = List.dropWhile isPyWs l.reverse := by
    unfold pyRstrip
    rw [List.reverse_reverse]
  obtain ⟨e, de, hde⟩ : ∃ e de, (pyRstrip l).reverse = e :: de := by
    have hne : (pyRstrip l) ≠ [] := by rw [hrs]; simp
    obtain ⟨e, de, h'⟩ :=
      List.exists_cons_of_ne_nil (List.reverse_ne_nil_iff.mpr hne)
    exact ⟨e, de, h'⟩
  have hew : isPyWs e = false := head_dropWhile_false (hrevh ▸ hde)
  have hlaste : (c :: pyRstrip d).getLast? = some e := by
    rw [hlast, ← List.head?_reverse, hde]
    rfl
  refine ⟨e, hc, hlaste, hew, ?_⟩
  -- unfold the definition on the decomposed line
  have hline2 : pyRstrip l ++ ['\n']
      = l.takeWhile isPyWs ++ ((c :: pyRstrip d) ++ ['\n']) := by
    rw [hrs, List.append_assoc]
  have hlstr : pyLstrip (l.takeWhile isPyWs ++ ((c :: pyRstrip d) ++ ['\n']))
      = (c :: pyRstrip d) ++ ['\n'] := by
    unfold pyLstrip
    rw [dropWhile_append_of_all htall, List.cons_append,
        List.dropWhile_cons_of_neg (by simp [hc])]
  have hind : (l.takeWhile isPyWs ++ ((c :: pyRstrip d) ++ ['\n'])).length
      - ((c :: pyRstrip d) ++ ['\n']).length = (l.takeWhile isPyWs).length := by
    rw [List.length_append]; omega
  have hmain : normalize_whitespace_line l
      = l.takeWhile isPyWs
        ++ collapseSpaces (((c :: pyRstrip d) ++ ['\n']).map tabToSpace) := by
    rw [normalize_whitespace_line_eq, hline2, hlstr, hind, List.take_left,
        List.drop_left]
  -- head of the collapsed body is c, so the leading run of the output is
  -- exactly the original leading run
  have hmapc : ((c :: pyRstrip d) ++ ['\n']).map tabToSpace
      = c :: ((pyRstrip d ++ ['\n']).map tabToSpace) := by
    simp [tabToSpace_of_not_ws hc]
  have hcoll : collapseSpaces (((c :: pyRstrip d) ++ ['\n']).map tabToSpace)
      = c :: collapseSpaces ((pyRstrip d ++ ['\n']).map tabToSpace) := by
    rw [hmapc, collapseSpaces_cons_of_ne _ (ne_space_of_not_ws hc)]
  have hlead : leadWsRun (normalize_whitespace_line l) = leadWsRun l := by
    rw [hmain, hcoll]
    unfold leadWsRun
    rw [takeWhile_append_of_all htall, List.takeWhile_cons_of_neg (by simp [hc])]
    simp
  refine ⟨hmain, hlead, ?_⟩
  rw [hlead, hmain]
  unfold leadWsRun
  rw [List.drop_left]

/-- A line of only whitespace is reduced to a bare newline. -/
lemma normLine_all_ws {l : List Char} (h : l.all isPyWs = true) :
    normalize_whitespace_line l = ['\n'] := by
  unfold normalize_whitespace_line
  rw [pyRstrip_of_all_ws h]
  rfl

lemma pyReadlinesAux_flatten : ∀ (t acc : List Char),
    (pyReadlinesAux acc t).flatten = acc.reverse ++ t := by
  intro t
  induction t with
  | nil =>
    intro acc
    by_cases h : acc.isEmpty <;> simp_all [pyReadlinesAux, List.isEmpty_iff]
  | cons c rest ih =>
    intro acc
    by_cases h : c = '\n'
    · subst h
      simp [pyReadlinesAux, ih]
    · simp [pyReadlinesAux, h, ih]

/-- Reading a file as lines and concatenating them back is the identity. -/
lemma pyReadlines_flatten (t : List Char) : (pyReadlines t).flatten = t := by
  simpa using pyReadlinesAux_flatten t []

lemma sizeBytes_flatten : ∀ ls : List (List Char),
    sizeBytes ls.flatten = (ls.map sizeBytes).sum := by
  intro ls
  induction ls with
  | nil => rfl
  | cons a ls ih =>
    simp only [List.flatten_cons, List.map_cons, List.sum_cons, ← ih]
    unfold sizeBytes
    rw [List.map_append, List.sum_append]


/-! ### Audit arithmetic -/

lemma audit_transformation_bytes (i o : List Char) :
    (audit_transformation i o).delta_bytes = (sizeBytes i : Int) - sizeBytes o := rfl

lemma audit_transformation_lines (i o : List Char) :
    (audit_transformation i o).delta_lines
      = ((pySplitlines i).length : Int) - (pySplitlines o).length := rfl

lemma audit_transformation_chars (i o : List Char) :
    (audit_transformation i o).delta_chars = (i.length : Int) - o.length := rfl

lemma audit_pipeline_bytes (first : List Char) (rest : List (List Char)) :
    (audit_pipeline first rest).total_bytes
      = (sizeBytes first : Int) - sizeBytes (rest.getLastD first) := rfl

lemma audit_pipeline_lines (first : List Char) (rest : List (List Char)) :
    (audit_pipeline first rest).total_lines
      = ((pySplitlines first).length : Int)
        - (pySplitlines (rest.getLastD first)).length := rfl

lemma audit_pipeline_chars (first : List Char) (rest : List (List Char)) :
    (audit_pipeline first rest).total_chars
      = (first.length : Int) - (rest.getLastD first).length := rfl

/-- The telescoping identity: summing any audit delta selector `g` over the
chained per-step audits collapses to the measure of the raw input minus
the measure of the final output, for every step order. -/
lemma auditsOf_telescope {g : Audit → Int} {m : List Char → Int}
    (hg : ∀ i o, g (audit_transformation i o) = m i - m o) :
    ∀ (order : List String) (raw : List Char),
      ((auditsOf raw order).map g).sum
        = m raw - m ((outputsOf raw order).getLastD raw) := by
  intro order
  induction order with
  | nil => intro raw; simp [auditsOf, outputsOf]
  | cons sid rest ih =>
    intro raw
    simp only [auditsOf, outputsOf, List.map_cons, List.sum_cons, hg]
    rw [ih (applyStep sid raw), List.getLastD_cons]
    omega

/-! ### Media linker lemmas -/

lemma scanGt_map_ne_nil {r g : List Char} (c : Char)
    (h : (scanGt r).map (c :: ·) = some g) : g ≠ [] := by
  rw [Option.map_eq_some'] at h
  obtain ⟨g', _, hg⟩ := h
  subst hg
  simp

lemma tryAttachContent_ne_nil {t g : List Char}
    (h : tryAttachContent t = some g) : g ≠ [] := by
  cases t with
  | nil => exact absurd h (by simp [tryAttachContent])
  | cons c r =>
    simp only [tryAttachContent] at h
    split at h
    · exact absurd h (by simp)
    · exact scanGt_map_ne_nil c h

lemma wsBacktrack_ne_nil {rest g : List Char} :
    ∀ {k : Nat}, wsBacktrack rest k = some g → g ≠ [] := by
  intro k
  induction k with
  | zero => exact fun h => tryAttachContent_ne_nil h
  | succ k ih =>
    intro h
    unfold wsBacktrack at h
    rcases (Option.orElse_eq_some' _ _ _).mp h with h' | ⟨-, h'⟩
    · exact tryAttachContent_ne_nil h'
    · exact ih h'

lemma extractAttachLoop_ne_nil :
    ∀ {s g : List Char}, extractAttachLoop s = some g → g ≠ [] := by
  intro s
  induction s with
  | nil => intro g h; exact absurd h (by simp [extractAttachLoop])
  | cons c rest ih =>
    intro g h
    unfold extractAttachLoop at h
    split at h
    · split at h
      · rename_i g' hm
        cases h
        exact wsBacktrack_ne_nil hm
      · exact ih h
    · exact ih h

/-- The extracted attachment filename is never the empty string: the
regex group `(.+?)` matches at least one character. -/
lemma extract_filename_ne_nil {content g : List Char}
    (h : extract_filename_from_content content = some g) : g ≠ [] :=
  extractAttachLoop_ne_nil h

/-! ### Transcription batch lemmas -/

lemma processRowEvents_append : ∀ a b : List TEvent,
    processRowEvents (a ++ b) = processRowEvents a ++ processRowEvents b := by
  intro a b
  induction a with
  | nil => rfl
  | cons e rest ih => cases e <;> simp [processRowEvents, ih]

lemma countSaveProgress_append (a b : List TEvent) :
    countSaveProgress (a ++ b) = countSaveProgress a + countSaveProgress b := by
  simp [countSaveProgress, List.filter_append]

lemma getD_eq_get? (l : List TRow) (n : Nat) :
    l.getD n dfltTRow = (l.get? n).getD dfltTRow := rfl

/-- The loop's row update never changes any row's `file_path`. -/
lemma stepDf_file_path (md : Option (List DirEntry))
    (api : List Char → Except (List Char) (List Char × List Char))
    (df : List TRow) (i j : Nat) :
    ((stepDf md api df i).getD j dfltTRow).file_path
      = (df.getD j dfltTRow).file_path := by
  unfold stepDf
  by_cases hij : i = j
  · subst hij
    rw [getD_eq_get?, getD_eq_get?, List.get?_set]
    simp only [if_pos rfl]
    cases h : df.get? i with
    | none => simp
    | some v => simp
  · rw [getD_eq_get?, getD_eq_get?, List.get?_set, if_neg hij]
    rfl

lemma processRowEvents_stepEvs (md : Option (List DirEntry))
    (api : List Char → Except (List Char) (List Char × List Char))
    (df : List TRow) (i p : Nat) (evs : List TEvent) :
    processRowEvents (stepEvs md api df i p evs)
      = processRowEvents evs ++ [(i, (df.getD i dfltTRow).file_path)] := by
  unfold stepEvs
  rw [processRowEvents_append, processRowEvents_append, processRowEvents_append]
  split <;> split <;> simp [processRowEvents]

lemma countSaveProgress_stepEvs (md : Option (List DirEntry))
    (api : List Char → Except (List Char) (List Char × List Char))
    (df : List TRow) (i p : Nat) (evs : List TEvent) :
    countSaveProgress (stepEvs md api df i p evs)
      = countSaveProgress evs + (if (p + 1) % 10 = 0 then 1 else 0) := by
  unfold stepEvs
  rw [countSaveProgress_append, countSaveProgress_append, countSaveProgress_append]
  split <;> split <;> simp [countSaveProgress]

/-- The rows a full loop processes are exactly the captured pending
indices, tagged with their (never-changing) file names. -/
lemma processLoop_events (md : Option (List DirEntry))
    (api : List Char → Except (List Char) (List Char × List Char)) :
    ∀ (is : List Nat) (df : List TRow) (p : Nat) (evs : List TEvent),
      processRowEvents (processLoop md api is df p evs).2.2
        = processRowEvents evs
          ++ is.map (fun i => (i, (df.getD i dfltTRow).file_path)) := by
  intro is
  induction is with
  | nil => intro df p evs; simp [processLoop]
  | cons i is ih =>
    intro df p evs
    rw [show processLoop md api (i :: is) df p evs
        = processLoop md api is (stepDf md api df i) (p + 1)
            (stepEvs md api df i p evs) from rfl]
    rw [ih, processRowEvents_stepEvs]
    have hmap : is.map (fun i' => (i', ((stepDf md api df i).getD i' dfltTRow).file_path))
        = is.map (fun i' => (i', (df.getD i' dfltTRow).file_path)) :=
      List.map_congr_left (fun j _ => by rw [stepDf_file_path md api df i j])
    rw [hmap]
    simp

/-- One progress save per 10 processed rows. -/
lemma processLoop_saves (md : Option (List DirEntry))
    (api : List Char → Except (List Char) (List Char × List Char)) :
    ∀ (is : List Nat) (df : List TRow) (p : Nat) (evs : List TEvent),
      countSaveProgress (processLoop md api is df p evs).2.2
        = countSaveProgress evs + ((p + is.length) / 10 - p / 10) := by
  intro is
  induction is with
  | nil => intro df p evs; simp [processLoop]
  | cons i is ih =>
    intro df p evs
    rw [show processLoop md api (i :: is) df p evs
        = processLoop md api is (stepDf md api df i) (p + 1)
            (stepEvs md api df i p evs) from rfl]
    rw [ih, countSaveProgress_stepEvs]
    simp only [List.length_cons]
    split <;> omega

lemma mem_of_processRowEvents :
    ∀ (evs : List TEvent) (i : Nat) (n : List Char),
      (i, n) ∈ processRowEvents evs → TEvent.processRow i n ∈ evs := by
  intro evs
  induction evs with
  | nil => intro i n h; simp [processRowEvents] at h
  | cons e rest ih =>
    intro i n h
    cases e with
    | processRow j m =>
      rw [show processRowEvents (TEvent.processRow j m :: rest)
          = (j, m) :: processRowEvents rest from rfl] at h
      rcases List.mem_cons.mp h with h' | h'
      · obtain ⟨h1, h2⟩ := Prod.mk.injEq .. ▸ h'
        subst h1 h2
        exact List.mem_cons_self _ _
      · exact List.mem_cons_of_mem _ (ih i n h')
    | callApi m => exact List.mem_cons_of_mem _ (ih i n h)
    | saveProgress r => exact List.mem_cons_of_mem _ (ih i n h)
    | saveComplete r => exact List.mem_cons_of_mem _ (ih i n h)
    | deleteProgress => exact List.mem_cons_of_mem _ (ih i n h)

/-- With no complete file, an existing progress file and a nonempty scan,
`main` either returns immediately (nothing pending) or runs the full
processing tail on the progress table. -/
lemma transcribe_main_run {fs : TranscribeFS} {rows : List TRow}
    {api : List Char → Except (List Char) (List Char × List Char)}
    (hc : fs.complete = none) (hp : fs.progress = some rows)
    (hscan : (scan_media_files fs.mediaDir).isEmpty = false) :
    transcribe_main fs api
      = if (pendingIdxs rows).length = 0 then (fs, [])
        else mainProcess fs api rows := by
  unfold transcribe_main
  have hload : load_or_create_dataframe fs (scan_media_files fs.mediaDir)
      = (rows, false) := by
    unfold load_or_create_dataframe
    rw [hc, hp]
  rw [if_neg (by simp [hscan]), hload]
  simp

/-- The run's trace processes exactly the pending rows of the progress
table (in index order, with their file names), and saves progress once
per 10 of them. -/
lemma transcribe_main_events {fs : TranscribeFS} {rows : List TRow}
    (api : List Char → Except (List Char) (List Char × List Char))
    (hc : fs.complete = none) (hp : fs.progress = some rows)
    (hscan : (scan_media_files fs.mediaDir).isEmpty = false) :
    processRowEvents (transcribe_main fs api).2
      = (pendingIdxs rows).map (fun i => (i, (rows.getD i dfltTRow).file_path))
    ∧ countSaveProgress (transcribe_main fs api).2
      = (pendingIdxs rows).length / 10 := by
  rw [transcribe_main_run hc hp hscan]
  by_cases hlen : (pendingIdxs rows).length = 0
  · rw [if_pos hlen, List.length_eq_zero.mp hlen]
    simp [processRowEvents, countSaveProgress, hlen]
  · rw [if_neg hlen]
    unfold mainProcess
    constructor
    · rw [processRowEvents_append, processRowEvents_append,
          processLoop_events]
      split <;> simp [processRowEvents]
    · rw [countSaveProgress_append, countSaveProgress_append,
          processLoop_saves]
      split <;> simp [countSaveProgress]

/-! ## Claim theorems -/

/-- When no marker rule fires, the classifier falls through to the
URL / emoji / plain-text cascade. -/
lemma classify_eq_fallback (s : List Char)
    (h : classifyMarkerRules (pyStrip (pyLower s)) = none) :
    classify_message_type s =
      if hasUrl s then .text_with_link
      else if s.any (fun c => c.toNat > 0x1F600) then .text_with_emoji
      else .text_pure := by
  unfold classify_message_type
  simp only [h]

/-- C1 counterexample.  The claim asserts that all string matching of the
classifier, including the URL detection, is case-insensitive.  The source
passes the original `content` (not `content_lower`) to
`re.search(r'https?://[^\s]+', content)` with no `re.IGNORECASE` flag, so
an upper-case URL is not detected: `"Check HTTP://EXAMPLE.COM"` is
classified `text_pure` while its lower-case variant (third conjunct shows
they differ only in case) is classified `text_with_link`. -/
theorem claim1_counterexample :
    classify_message_type "Check HTTP://EXAMPLE.COM".data = .text_pure
    ∧ classify_message_type "check http://example.com".data = .text_with_link
    ∧ pyLower "Check HTTP://EXAMPLE.COM".data = "check http://example.com".data :=
  ⟨by decide, by decide, by decide⟩

/-- C1 amended.  `classify` is total by construction (every input is mapped
to exactly one constructor of the fixed enumeration `MessageType`, and no
operation can raise).  Rules are first-match-wins in the fixed order, so a
string containing a deleted-message marker is classified `message_deleted`
no matter what else (e.g. a URL) it contains (first conjunct).  The marker
rules 1-6 match case-insensitively: they depend only on the lowercased
content (second conjunct).  The URL rule, however, is case-sensitive: when
no marker rule fires, the outcome `text_with_link` is equivalent to the
case-sensitive search `https?://` on the original content (third
conjunct), which the counterexample shows to miss upper-case URLs. -/
theorem claim1_amended :
    (∀ s : List Char,
        containsSub "this message was deleted".data (pyStrip (pyLower s)) = true →
        classify_message_type s = .message_deleted)
    ∧ (∀ s t : List Char, pyLower s = pyLower t →
        classifyMarkerRules (pyStrip (pyLower s)) = classifyMarkerRules (pyStrip (pyLower t)))
    ∧ (∀ s : List Char, classifyMarkerRules (pyStrip (pyLower s)) = none →
        (classify_message_type s = .text_with_link ↔ hasUrl s = true)) := by
  refine ⟨fun s h => ?_, fun s t h => by rw [h], fun s h => ?_⟩
  · unfold classify_message_type classifyMarkerRules
    simp only [h, if_true]
  · rw [classify_eq_fallback s h]
    cases hU : hasUrl s with
    | true => simp
    | false =>
      cases hE : s.any (fun c => c.toNat > 0x1F600) <;> simp [hE]

/-- C1 witness: the amended theorem applied at concrete inputs — a message
containing both the deleted marker and a URL is classified
`message_deleted` (rule order), and for URL-rule inputs the
`text_with_link` outcome tracks the case-sensitive search. -/
theorem claim1_amended_witness :
    classify_message_type "This message was deleted https://x.co".data = .message_deleted
    ∧ (classify_message_type "see http://a.io".data = .text_with_link ↔
        hasUrl "see http://a.io".data = true) :=
  ⟨claim1_amended.1 _ (by decide), claim1_amended.2.2 _ (by decide)⟩

/-- C2 counterexample.  The claim says the preserved indentation is the
leading-whitespace-run length computed from the line *before* any other
normalization, including trailing-whitespace stripping.  The source
computes it *after* `line.rstrip() + '\n'`.  On a whitespace-only line
this is observable: in `"  a\n  \n"` the second line's pre-normalization
leading run is its whole content (3 characters, 2 ignoring the
terminator), yet the output drops both spaces, keeping a bare newline,
while the first line's two-space indentation is preserved. -/
theorem claim2_counterexample :
    normalize_whitespace "  a\n  \n".data = "  a\n\n".data
    ∧ leadWsRun "  \n".data = 3
    ∧ normalize_whitespace_line "  \n".data = "\n".data :=
  ⟨by decide, by decide, by decide⟩

/-- C2 amended.  Per line, the step collapses runs of 2 or more spaces
after the indentation to one, converts the tabs after the indentation to
spaces, strips trailing whitespace (normalizing the terminator to a single
`\n`), and preserves the leading indentation, where the preserved
indentation is the leading-whitespace run computed *after*
trailing-whitespace stripping: for every line containing a non-whitespace
character this equals the pre-normalization leading run (conjunct 1),
while a whitespace-only line is reduced to a bare newline (conjunct 2).
The body after the preserved indentation has no two adjacent spaces
(conjunct 3) and no tab (conjunct 4); the output has no trailing
whitespace before its final newline (conjunct 5).  The step reports bytes
saved: its metric equals the input's byte size minus the output's
(conjunct 6). -/
theorem claim2_amended :
    (∀ l : List Char, l.any (fun c => !isPyWs c) = true →
        leadWsRun (normalize_whitespace_line l) = leadWsRun l)
    ∧ (∀ l : List Char, l.all isPyWs = true →
        normalize_whitespace_line l = ['\n'])
    ∧ (∀ l : List Char,
        hasDoubleSpace ((normalize_whitespace_line l).drop
          (leadWsRun (normalize_whitespace_line l))) = false)
    ∧ (∀ l : List Char,
        '\t' ∉ (normalize_whitespace_line l).drop
          (leadWsRun (normalize_whitespace_line l)))
    ∧ (∀ l : List Char,
        pyRstrip (normalize_whitespace_line l) ++ ['\n'] = normalize_whitespace_line l)
    ∧ (∀ content : List Char, normalize_whitespace_metric content
        = (sizeBytes content : Int) - sizeBytes (normalize_whitespace content)) := by
  have hsplit : ∀ l : List Char, l.any (fun c => !isPyWs c) = true ∨ l.all isPyWs = true := by
    intro l
    by_cases h : l.any (fun c => !isPyWs c) = true
    · exact Or.inl h
    · refine Or.inr ?_
      simp only [List.any_eq_true, not_exists, not_and] at h
      simp only [List.all_eq_true]
      intro x hx
      have := h x hx
      simpa using this
  refine ⟨fun l h => ?_, fun l h => normLine_all_ws h, fun l => ?_, fun l => ?_,
    fun l => ?_, fun content => ?_⟩
  · obtain ⟨c, Z, e, _, _, _, _, hlead, _⟩ := normLine_main l h
    exact hlead
  · rcases hsplit l with h | h
    · obtain ⟨c, Z, e, _, _, _, _, _, hdrop⟩ := normLine_main l h
      rw [hdrop]
      exact hasDoubleSpace_collapseSpaces _
    · rw [normLine_all_ws h]; decide
  · rcases hsplit l with h | h
    · obtain ⟨c, Z, e, _, _, _, _, _, hdrop⟩ := normLine_main l h
      rw [hdrop]
      intro hmem
      have := mem_of_mem_collapseSpaces hmem
      simp only [List.mem_map] at this
      obtain ⟨x, _, hx⟩ := this
      unfold tabToSpace at hx
      split at hx <;> simp_all
    · rw [normLine_all_ws h]; decide
  · rcases hsplit l with h | h
    · obtain ⟨c, Z, e, hc, hlaste, hew, hmain, _, _⟩ := normLine_main l h
      have hmap : ((c :: Z) ++ ['\n']).map tabToSpace
          = ((c :: Z).map tabToSpace) ++ ['\n'] := by
        simp [tabToSpace]
      have hco : collapseSpaces (((c :: Z) ++ ['\n']).map tabToSpace)
          = collapseSpaces ((c :: Z).map tabToSpace) ++ ['\n'] := by
        rw [hmap, collapseSpaces_append_single (by decide)]
      have hgl : (l.takeWhile isPyWs
          ++ collapseSpaces ((c :: Z).map tabToSpace)).getLast? = some e := by
        have hne : collapseSpaces ((c :: Z).map tabToSpace) ≠ [] :=
          collapseSpaces_ne_nil (by simp)
        rw [List.getLast?_append_of_ne_nil _ hne, collapseSpaces_getLast?,
            List.getLast?_map, hlaste]
        simp [tabToSpace_of_not_ws hew]
      rw [hmain, hco, ← List.append_assoc,
          pyRstrip_append_newline ⟨e, hgl, hew⟩]
    · rw [normLine_all_ws h]; decide
  · unfold normalize_whitespace_metric normalize_whitespace
    have h1 : (sizeBytes content : Int)
        = ((pyReadlines content).map (fun l => (sizeBytes l : Int))).sum := by
      conv_lhs => rw [← pyReadlines_flatten content]
      rw [sizeBytes_flatten, Nat.cast_list_sum, List.map_map]
      rfl
    have h2 : (sizeBytes (((pyReadlines content).map normalize_whitespace_line).flatten) : Int)
        = ((pyReadlines content).map
            (fun l => (sizeBytes (normalize_whitespace_line l) : Int))).sum := by
      rw [sizeBytes_flatten, Nat.cast_list_sum, List.map_map, List.map_map]
      rfl
    rw [h1, h2]

/-- C2 witness: the amended theorem at concrete lines — an indented,
tab-and-double-space-ridden line keeps its two-space indentation, and a
whitespace-only line becomes a bare newline. -/
theorem claim2_amended_witness :
    leadWsRun (normalize_whitespace_line "  a\t b  c   \n".data)
      = leadWsRun "  a\t b  c   \n".data
    ∧ normalize_whitespace_line " \t \n".data = ['\n'] :=
  ⟨claim2_amended.1 _ (by decide), claim2_amended.2.1 _ (by decide)⟩

/-- C4.  For every order over the registered step ids (any subset,
permutation, even repetition) and every input, the per-step audit deltas
of a successful `run_pipeline` run sum to the pipeline totals' delta,
which equals the original raw file's size minus the final output's size —
for bytes, lines and characters alike. -/
theorem claim4_audit_additivity :
    ∀ (order : List String) (raw : List Char) (res : CleaningResult),
      run_pipeline order raw = .ok res →
      ((res.audits.map (·.delta_bytes)).sum = res.totals.total_bytes
        ∧ res.totals.total_bytes
            = (sizeBytes raw : Int) - sizeBytes res.final_output)
      ∧ ((res.audits.map (·.delta_lines)).sum = res.totals.total_lines
        ∧ res.totals.total_lines
            = ((pySplitlines raw).length : Int)
              - (pySplitlines res.final_output).length)
      ∧ ((res.audits.map (·.delta_chars)).sum = res.totals.total_chars
        ∧ res.totals.total_chars
            = (raw.length : Int) - res.final_output.length) := by
  intro order raw res hok
  unfold run_pipeline at hok
  split at hok
  · simp only [Except.ok.injEq] at hok
    subst hok
    refine ⟨⟨?_, ?_⟩, ⟨?_, ?_⟩, ⟨?_, ?_⟩⟩
    · rw [auditsOf_telescope audit_transformation_bytes order raw,
          audit_pipeline_bytes]
    · exact audit_pipeline_bytes raw (outputsOf raw order)
    · rw [auditsOf_telescope audit_transformation_lines order raw,
          audit_pipeline_lines]
    · exact audit_pipeline_lines raw (outputsOf raw order)
    · rw [auditsOf_telescope audit_transformation_chars order raw,
          audit_pipeline_chars]
    · exact audit_pipeline_chars raw (outputsOf raw order)
  · exact absurd hok (by simp)

/-- C4 witness: the additivity theorem applied to a concrete two-step run
(U+200E removal then empty-line removal) on a file containing one U+200E
and one blank line. -/
theorem claim4_witness :
    ∃ res, run_pipeline ["u200e", "empty_lines"] "a‎b\n\nc\n".data = .ok res
      ∧ (res.audits.map (·.delta_bytes)).sum = res.totals.total_bytes
      ∧ res.totals.total_bytes
          = (sizeBytes "a‎b\n\nc\n".data : Int) - sizeBytes res.final_output := by
  cases hres : run_pipeline ["u200e", "empty_lines"] "a‎b\n\nc\n".data with
  | error e =>
    exfalso
    have hsome : (run_pipeline ["u200e", "empty_lines"]
        "a‎b\n\nc\n".data).toOption.isSome = true := by decide
    rw [hres] at hsome
    simp [Except.toOption] at hsome
  | ok res => exact ⟨res, rfl, (claim4_audit_additivity _ _ res hres).1⟩

/-- C5.  `run_pipeline` validates every id of `order` against the registry
before executing anything: when some id is unknown it raises a
`ValueError` listing exactly the invalid ids (the error path carries no
outputs — no step runs, no intermediate file is produced); when every id
is registered, that validation error is not raised and the run returns a
result. -/
theorem claim5_validation :
    ∀ (order : List String) (raw : List Char),
      ((∃ sid ∈ order, lookupStep sid = none) →
        run_pipeline order raw
          = .error (order.filter (fun sid => (lookupStep sid).isNone)))
      ∧ ((∀ sid ∈ order, (lookupStep sid).isSome) →
        ∃ res, run_pipeline order raw = .ok res) := by
  intro order raw
  constructor
  · rintro ⟨sid, hmem, hnone⟩
    have hin : sid ∈ order.filter (fun s => (lookupStep s).isNone) :=
      List.mem_filter.mpr ⟨hmem, by simp [hnone]⟩
    have hne : ¬(order.filter (fun s => (lookupStep s).isNone)).isEmpty = true := by
      rw [List.isEmpty_iff]
      exact List.ne_nil_of_mem hin
    rw [run_pipeline, if_neg hne]
  · intro hall
    have hemp : (order.filter (fun s => (lookupStep s).isNone)).isEmpty = true := by
      rw [List.isEmpty_iff, List.filter_eq_nil_iff]
      intro a ha
      have h2 := hall a ha
      simp only [Option.isNone_iff_eq_none]
      exact Option.ne_none_iff_isSome.mpr h2
    exact ⟨_, by rw [run_pipeline, if_pos hemp]⟩

/-- C5 witness: an order containing the unknown id `"bogus"` fails with
exactly `["bogus"]` listed and no result; an all-registered order
succeeds. -/
theorem claim5_witness :
    run_pipeline ["u200e", "bogus"] "x\n".data = .error ["bogus"]
    ∧ ∃ res, run_pipeline ["u200e", "empty_lines"] "x\n".data = .ok res := by
  constructor
  · have h := (claim5_validation ["u200e", "bogus"] "x\n".data).1
      ⟨"bogus", by decide, rfl⟩
    rw [h]
    rfl
  · refine (claim5_validation ["u200e", "empty_lines"] "x\n".data).2 ?_
    intro sid hsid
    fin_cases hsid <;> rfl

/-! ### Round-trip lemmas -/

lemma findColonSpace_reconstruct :
    ∀ {r : List Char} {p q : List Char},
      findColonSpace r = some (p, q) → r = p ++ ':' :: ' ' :: q := by
  intro r
  induction r with
  | nil => intro p q h; exact absurd h (by simp [findColonSpace])
  | cons c1 rest ih =>
    cases rest with
    | nil => intro p q h; exact absurd h (by simp [findColonSpace])
    | cons c2 rr =>
      intro p q h
      unfold findColonSpace at h
      split at h
      · rename_i hcs
        simp only [Option.some.injEq, Prod.mk.injEq] at h
        obtain ⟨hp, hq⟩ := h
        simp only [Bool.and_eq_true, decide_eq_true_eq] at hcs
        subst hp hq
        rw [hcs.1, hcs.2]
        rfl
      · split at h
        · exact absurd h (by simp)
        · rw [Option.map_eq_some'] at h
          obtain ⟨⟨p', q'⟩, hfind, heq⟩ := h
          simp only [Prod.mk.injEq] at heq
          obtain ⟨hp, hq⟩ := heq
          subst hp hq
          rw [List.cons_append, ← ih hfind]

lemma splitSender_reconstruct {r snd cnt : List Char}
    (h : splitSender r = some (snd, cnt)) :
    r = snd ++ ':' :: ' ' :: cnt ∧ snd ≠ [] := by
  cases r with
  | nil => exact absurd h (by simp [splitSender])
  | cons c rest =>
    simp only [splitSender] at h
    split at h
    · exact absurd h (by simp)
    · rw [Option.map_eq_some'] at h
      obtain ⟨⟨p', q'⟩, hfind, heq⟩ := h
      simp only [Prod.mk.injEq] at heq
      obtain ⟨hp, hq⟩ := heq
      subst hp hq
      exact ⟨by rw [List.cons_append, ← findColonSpace_reconstruct hfind], by simp⟩

/-- The regex groups concatenated with the literal separators reproduce
the matched line exactly. -/
lemma matchHeader_reconstruct {l d t snd cnt : List Char}
    (h : matchHeader l = some (d, t, snd, cnt)) :
    l = d ++ ' ' :: t ++ ' ' :: snd ++ ':' :: ' ' :: cnt := by
  unfold matchHeader at h
  split at h
  · rename_i lX d1 d2 m1 m2 y1 y2 h1 h2 n1 n2 s1 s2 rest
    split at h
    · cases hsplit : splitSender rest with
      | none => rw [hsplit] at h; exact absurd h (by simp)
      | some pr =>
        obtain ⟨snd', cnt'⟩ := pr
        rw [hsplit] at h
        dsimp only at h
        split at h
        · exact absurd h (by simp)
        · simp only [Option.some.injEq, Prod.mk.injEq] at h
          obtain ⟨hd, ht, hs, hc⟩ := h
          subst hd ht hs hc
          obtain ⟨hrest, -⟩ := splitSender_reconstruct hsplit
          rw [hrest]
          rfl
    · exact absurd h (by simp)
  · exact absurd h (by simp)

lemma contJoin_append (a : List (List Char)) (l : List Char) :
    contJoin (a ++ [l]) = contJoin a ++ '\n' :: l := by
  unfold contJoin
  rw [List.map_append, List.flatten_append]
  simp

lemma roundTripRel_of_parts {m : Msg} {b : MsgBlock} {c0 : List Char}
    (h1 : m.linha_original = b.linha_original)
    (h2 : matchHeader b.header = some (m.data, m.hora, m.remetente, c0))
    (h4 : m.conteudo = c0 ++ contJoin b.conts) :
    RoundTripRel m b := by
  have h3 : m.data ++ ' ' :: m.hora ++ ' ' :: m.remetente ++ ':' :: ' ' :: c0
      = b.header := (matchHeader_reconstruct h2).symm
  refine ⟨h1, ?_, c0, h2, h3, h4⟩
  unfold serializeMsg blockText
  rw [h4, ← h3]
  simp [List.append_assoc]

/-- The state invariant tying the parser's open message to the reference
decomposition's open block. -/
def CurRel : Option Msg → Option MsgBlock → Prop
  | none, none => True
  | some m, some b => RoundTripRel m b
  | _, _ => False

lemma parse_blocks_loop :
    ∀ (ls : List (List Char)) (n : Nat) (mc : Option Msg) (bc : Option MsgBlock),
      CurRel mc bc →
      List.Forall₂ RoundTripRel (parseLoop n mc ls) (blocksLoop n bc ls) := by
  intro ls
  induction ls with
  | nil =>
    intro n mc bc h
    cases mc with
    | none =>
      cases bc with
      | none => exact List.Forall₂.nil
      | some b => exact (h : False).elim
    | some m =>
      cases bc with
      | none => exact (h : False).elim
      | some b => exact List.Forall₂.cons (h : RoundTripRel m b) List.Forall₂.nil
  | cons l ls ih =>
    intro n mc bc h
    cases hmh : matchHeader l with
    | some quad =>
      obtain ⟨d, t, snd, cnt⟩ := quad
      have e1 : parseLoop n mc (l :: ls)
          = mc.toList ++ parseLoop (n + 1) (some ⟨n, d, t, snd, cnt⟩) ls := by
        simp only [parseLoop, hmh]
      have e2 : blocksLoop n bc (l :: ls)
          = bc.toList ++ blocksLoop (n + 1) (some ⟨n, l, []⟩) ls := by
        simp only [blocksLoop, hmh]
      rw [e1, e2]
      refine List.rel_append ?_ (ih (n + 1) _ _ ?_)
      · cases mc with
        | none =>
          cases bc with
          | none => exact List.Forall₂.nil
          | some b => exact (h : False).elim
        | some m =>
          cases bc with
          | none => exact (h : False).elim
          | some b =>
            exact List.Forall₂.cons (h : RoundTripRel m b) List.Forall₂.nil
      · show RoundTripRel ⟨n, d, t, snd, cnt⟩ ⟨n, l, []⟩
        refine roundTripRel_of_parts rfl hmh ?_
        simp [contJoin]
    | none =>
      cases mc with
      | none =>
        cases bc with
        | some b => exact (h : False).elim
        | none =>
          have e1 : parseLoop n none (l :: ls) = parseLoop (n + 1) none ls := by
            simp only [parseLoop, hmh]
          have e2 : blocksLoop n none (l :: ls) = blocksLoop (n + 1) none ls := by
            simp only [blocksLoop, hmh]
          rw [e1, e2]
          exact ih (n + 1) none none trivial
      | some m =>
        cases bc with
        | none => exact (h : False).elim
        | some b =>
          have hr : RoundTripRel m b := h
          have e1 : parseLoop n (some m) (l :: ls)
              = parseLoop (n + 1)
                  (some { m with conteudo := m.conteudo ++ '\n' :: l }) ls := by
            simp only [parseLoop, hmh]
          have e2 : blocksLoop n (some b) (l :: ls)
              = blocksLoop (n + 1) (some { b with conts := b.conts ++ [l] }) ls := by
            simp only [blocksLoop, hmh]
          rw [e1, e2]
          refine ih (n + 1) _ _ ?_
          show RoundTripRel _ _
          obtain ⟨hl, hs, c0, hmh2, hrec, hcont⟩ := hr
          refine roundTripRel_of_parts hl hmh2 ?_
          show m.conteudo ++ '\n' :: l = c0 ++ contJoin (b.conts ++ [l])
          rw [contJoin_append, hcont, List.append_assoc]

lemma parseLoop_none_of_all :
    ∀ (ls : List (List Char)) (n : Nat),
      ls.all (fun l => (matchHeader l).isNone) = true →
      parseLoop n none ls = [] := by
  intro ls
  induction ls with
  | nil => intro n _; rfl
  | cons l ls ih =>
    intro n h
    simp only [List.all_cons, Bool.and_eq_true] at h
    have hnone : matchHeader l = none := Option.isNone_iff_eq_none.mp h.1
    simp only [parseLoop, hnone]
    exact ih (n + 1) h.2

/-- C6.  Round trip: the parsed messages correspond one-to-one, in order,
to the blocks of original lines (header line plus following continuation
lines); for each message, re-serializing its date, time, sender and
first-line content as `"date time sender: content"` reproduces the
original header line exactly, and the continuation lines are losslessly
concatenated, newline-separated and in original order, into the message's
content (`raw_content`), so serializing the whole message reproduces the
whole original block. -/
theorem claim6_round_trip :
    ∀ content : List Char,
      List.Forall₂ RoundTripRel (parse_to_messages content) (blocksOf content) := by
  intro content
  exact parse_blocks_loop (parsedLines content) 1 none none trivial

/-- C10.  For every input in which no line matches the message-start
pattern (an empty file included), `parse_to_dataframe` raises: the
messages list is empty, `pd.DataFrame([])` has no `'data'`/`'hora'`
columns, and the timestamp-derivation step raises `KeyError` instead of
returning an empty message sequence. -/
theorem claim10_empty_parse :
    ∀ content : List Char,
      (parsedLines content).all (fun l => (matchHeader l).isNone) = true →
      parse_to_dataframe content = .error .keyError := by
  intro content h
  unfold parse_to_dataframe parse_to_messages
  rw [parseLoop_none_of_all (parsedLines content) 1 h]

/-- C10 witness: a file of two plain-text lines, and the empty file,
both make `parse_to_dataframe` raise `KeyError`. -/
theorem claim10_witness :
    parse_to_dataframe "hello\nworld".data = .error .keyError
    ∧ parse_to_dataframe [] = .error .keyError :=
  ⟨claim10_empty_parse _ (by decide), claim10_empty_parse _ (by decide)⟩

/-- C3 counterexample.  The claim says running the media-linking stage
with a nonexistent media directory is fatal and aborts the whole run.  On
a file system with no directories at all, a `['parse', 'media']` run
completes normally (`.ok`): the inventory step returns an empty DataFrame
after printing a warning, and linking proceeds, marking the message's
attachment as missing (`arquivo_existe = False`, `arquivo_path = None`)
instead of aborting. -/
theorem claim3_counterexample :
    run_wrangling_pipeline ["parse", "media"]
      "01/01/24 10:00:00 P1: <attached: IMG-AUDIO-0001.opus>\n".data
      ⟨[]⟩ (some "data/media".data) none false
    = .ok { df := some [{ exRow with
              arquivo := some (some "IMG-AUDIO-0001.opus".data),
              arquivo_existe := some false,
              extensao := some (some ".opus".data),
              tipo_arquivo := some (some "AUDIO".data),
              arquivo_path := some none }],
            outputs := [], order := ["parse", "media"] } := by decide

/-- C3 amended.  A missing media directory is not fatal: the inventory
is empty (a warning is printed), the linking stage still runs and
returns one row per message with every attachment marked missing
(`media_exists = false`, `media_path = null`), and the pipeline
continues. -/
theorem claim3_amended :
    ∀ (fs : MediaFS) (dir : List Char) (df : List Row),
      fs.dirs.find? (fun p => p.1 == dir) = none →
      inventory_media_files fs dir = []
      ∧ (link_media_to_messages fs dir df).length = df.length
      ∧ ∀ r ∈ link_media_to_messages fs dir df,
          r.arquivo_existe = some false ∧ r.arquivo_path = some none := by
  intro fs dir df h
  have hinv : inventory_media_files fs dir = [] := by
    unfold inventory_media_files
    rw [h]
  refine ⟨hinv, by simp [link_media_to_messages], ?_⟩
  intro r hr
  unfold link_media_to_messages at hr
  rw [hinv] at hr
  simp only [List.map_nil, List.mem_map] at hr
  obtain ⟨r0, hr0, hreq⟩ := hr
  subst hreq
  have hex : linkExists [] (extract_filename_from_content r0.conteudo) = false := by
    cases extract_filename_from_content r0.conteudo <;> simp [linkExists]
  constructor
  · show (linkRow [] dir r0).arquivo_existe = some false
    simp [linkRow, hex]
  · show (linkRow [] dir r0).arquivo_path = some none
    simp [linkRow, hex]

/-- C3 witness: the amended theorem applied to the empty file system and
a one-row table. -/
theorem claim3_amended_witness :
    inventory_media_files ⟨[]⟩ "data/media".data = []
    ∧ ((link_media_to_messages ⟨[]⟩ "data/media".data [exRow]).getD 0 exRow).arquivo_existe
        = some false
    ∧ ((link_media_to_messages ⟨[]⟩ "data/media".data [exRow]).getD 0 exRow).arquivo_path
        = some none := by
  have h := claim3_amended ⟨[]⟩ "data/media".data [exRow] rfl
  exact ⟨h.1, (h.2.2 _ (by decide)).1, (h.2.2 _ (by decide)).2⟩

/-- C8.  Media link soundness: linking preserves cardinality, and for
every linked row — if no attachment filename was extracted,
`media_exists` is false and the path null; if the extracted filename is
not among the filenames found by the non-recursive scan, `media_exists`
is false and the path null; if it is present, `media_exists` is true and
`media_path` is the media directory joined with the filename. -/
theorem claim8_media_link :
    ∀ (fs : MediaFS) (dir : List Char) (df : List Row),
      (link_media_to_messages fs dir df).length = df.length
      ∧ ∀ r ∈ link_media_to_messages fs dir df,
          (r.arquivo = some none →
            r.arquivo_existe = some false ∧ r.arquivo_path = some none)
          ∧ (∀ f, r.arquivo = some (some f) →
              (f ∈ (inventory_media_files fs dir).map (·.filename) →
                r.arquivo_existe = some true
                ∧ r.arquivo_path = some (some (joinPath dir f)))
              ∧ (f ∉ (inventory_media_files fs dir).map (·.filename) →
                r.arquivo_existe = some false ∧ r.arquivo_path = some none)) := by
  intro fs dir df
  refine ⟨by simp [link_media_to_messages], ?_⟩
  intro r hr
  unfold link_media_to_messages at hr
  simp only [List.mem_map] at hr
  obtain ⟨r0, hr0, hreq⟩ := hr
  subst hreq
  cases harq : extract_filename_from_content r0.conteudo with
  | none =>
    constructor
    · intro _
      constructor
      · show (linkRow _ dir r0).arquivo_existe = some false
        simp [linkRow, harq, linkExists]
      · show (linkRow _ dir r0).arquivo_path = some none
        simp [linkRow, harq, linkExists]
    · intro f hf
      exfalso
      simp [linkRow, harq] at hf
  | some f0 =>
    have hne : f0 ≠ [] := extract_filename_ne_nil harq
    constructor
    · intro hf
      exfalso
      simp [linkRow, harq] at hf
    · intro f hf
      have hf0 : f0 = f := by simpa [linkRow, harq] using hf
      subst hf0
      constructor
      · intro hmem
        simp only [List.mem_map] at hmem
        constructor
        · show (linkRow _ dir r0).arquivo_existe = some true
          simp [linkRow, harq, linkExists, hne, hmem]
        · show (linkRow _ dir r0).arquivo_path = some (some (joinPath dir f0))
          simp [linkRow, harq, linkExists, hne, hmem]
      · intro hnmem
        simp only [List.mem_map] at hnmem
        constructor
        · show (linkRow _ dir r0).arquivo_existe = some false
          simp [linkRow, harq, linkExists, hnmem]
        · show (linkRow _ dir r0).arquivo_path = some none
          simp [linkRow, harq, linkExists, hnmem]

/-- C8 witness: a directory holding exactly `IMG-AUDIO-0001.opus`
resolves that attachment to an existing file with the joined path; a scan
of an empty directory leaves it missing. -/
theorem claim8_witness :
    (((link_media_to_messages
        ⟨[("data/media".data, [⟨"IMG-AUDIO-0001.opus".data, true, 5⟩])]⟩
        "data/media".data [exRow]).getD 0 exRow).arquivo_existe = some true
      ∧ ((link_media_to_messages
        ⟨[("data/media".data, [⟨"IMG-AUDIO-0001.opus".data, true, 5⟩])]⟩
        "data/media".data [exRow]).getD 0 exRow).arquivo_path
          = some (some "data/media/IMG-AUDIO-0001.opus".data))
    ∧ (((link_media_to_messages ⟨[("data/media".data, [])]⟩
        "data/media".data [exRow]).getD 0 exRow).arquivo_existe = some false
      ∧ ((link_media_to_messages ⟨[("data/media".data, [])]⟩
        "data/media".data [exRow]).getD 0 exRow).arquivo_path = some none) := by
  constructor
  · have h := (claim8_media_link
      ⟨[("data/media".data, [⟨"IMG-AUDIO-0001.opus".data, true, 5⟩])]⟩
      "data/media".data [exRow]).2
      ((link_media_to_messages
        ⟨[("data/media".data, [⟨"IMG-AUDIO-0001.opus".data, true, 5⟩])]⟩
        "data/media".data [exRow]).getD 0 exRow) (by decide)
    exact ((h.2 "IMG-AUDIO-0001.opus".data (by decide)).1 (by decide))
  · have h := (claim8_media_link ⟨[("data/media".data, [])]⟩
      "data/media".data [exRow]).2
      ((link_media_to_messages ⟨[("data/media".data, [])]⟩
        "data/media".data [exRow]).getD 0 exRow) (by decide)
    exact ((h.2 "IMG-AUDIO-0001.opus".data (by decide)).2 (by decide))

/-- C7.  The batch producer is idempotent and restartable.
Conjunct 1: an existing complete file short-circuits everything — the run
changes no file and emits no event (in particular no row is transcribed).
Conjunct 2: with a prior progress file, the rows processed are exactly
the rows whose status is `pending`, in order, so (conjunct 3) a row
already marked `completed` (or anything other than `pending`) is never
reprocessed across restarts.  Conjunct 4: the table is persisted to the
distinct progress file once per 10 processed rows.  Conjunct 5: on full
completion the complete file is written with the fully-processed table
and the progress file is retired. -/
theorem claim7_resumable :
    (∀ (fs : TranscribeFS)
        (api : List Char → Except (List Char) (List Char × List Char)),
        fs.complete.isSome = true → transcribe_main fs api = (fs, []))
    ∧ (∀ fs api (rows : List TRow), fs.complete = none → fs.progress = some rows →
        (scan_media_files fs.mediaDir).isEmpty = false →
        processRowEvents (transcribe_main fs api).2
          = (pendingIdxs rows).map (fun i => (i, (rows.getD i dfltTRow).file_path)))
    ∧ (∀ fs api (rows : List TRow), fs.complete = none → fs.progress = some rows →
        (scan_media_files fs.mediaDir).isEmpty = false →
        ∀ pr ∈ processRowEvents (transcribe_main fs api).2,
          (rows.getD pr.1 dfltTRow).transcription_status = "pending".data)
    ∧ (∀ fs api (rows : List TRow), fs.complete = none → fs.progress = some rows →
        (scan_media_files fs.mediaDir).isEmpty = false →
        countSaveProgress (transcribe_main fs api).2 = (pendingIdxs rows).length / 10)
    ∧ (∀ fs api (rows : List TRow), fs.complete = none → fs.progress = some rows →
        (scan_media_files fs.mediaDir).isEmpty = false →
        (pendingIdxs rows).length ≠ 0 →
        (transcribe_main fs api).1.progress = none
        ∧ ∃ final, (transcribe_main fs api).1.complete = some final
            ∧ TEvent.saveComplete final ∈ (transcribe_main fs api).2) := by
  refine ⟨?_, ?_, ?_, ?_, ?_⟩
  · intro fs api hc
    unfold transcribe_main
    by_cases hs : (scan_media_files fs.mediaDir).isEmpty
    · rw [if_pos hs]
    · rw [if_neg hs]
      have h2 : (load_or_create_dataframe fs (scan_media_files fs.mediaDir)).2 = true := by
        unfold load_or_create_dataframe
        cases hcc : fs.complete with
        | none => rw [hcc] at hc; simp at hc
        | some rows => simp
      rw [if_pos (by simp [h2])]
  · intro fs api rows hc hp hscan
    exact (transcribe_main_events api hc hp hscan).1
  · intro fs api rows hc hp hscan pr hpr
    rw [(transcribe_main_events api hc hp hscan).1] at hpr
    simp only [List.mem_map] at hpr
    obtain ⟨i, hi, heq⟩ := hpr
    have hstat := (List.mem_filter.mp hi).2
    have hpr1 : pr.1 = i := by rw [← heq]
    rw [hpr1]
    exact eq_of_beq hstat
  · intro fs api rows hc hp hscan
    exact (transcribe_main_events api hc hp hscan).2
  · intro fs api rows hc hp hscan hlen
    rw [transcribe_main_run hc hp hscan, if_neg hlen]
    unfold mainProcess
    refine ⟨rfl, _, rfl, ?_⟩
    simp

/-- C7 witness: the resumability theorem at concrete states — an existing
complete file produces a no-op run, and a progress file with one
completed and one pending row leads to exactly the pending row (index 1)
being processed. -/
theorem claim7_witness :
    transcribe_main ⟨some exMediaDir, none, some [compRowB]⟩
      (fun _ => .ok ("oi".data, "pt".data))
      = (⟨some exMediaDir, none, some [compRowB]⟩, [])
    ∧ processRowEvents (transcribe_main ⟨some exMediaDir, some [compRowB, pendRowA], none⟩
        (fun _ => .ok ("oi".data, "pt".data))).2
      = [(1, "a-audio-1.opus".data)] := by
  constructor
  · exact claim7_resumable.1 _ _ (by decide)
  · rw [claim7_resumable.2.1 _ _ [compRowB, pendRowA] rfl rfl (by decide)]
    decide

/-- C9.  Per-file error handling of the transcription batch.
Conjunct 1: a file over the 25 MB ceiling is rejected with an explicit
too-large error row and the API call is **not** attempted (flag `false`).
Conjunct 2: an exception thrown by the transcription call is caught and
recorded on that row as `status='error'` with the exception's message
(flag `true`: the call was attempted).  Conjunct 3: no failure aborts the
batch — for *every* API behaviour, every pending row still gets
processed. -/
theorem claim9_per_file :
    (∀ (size : Nat) (api : Except (List Char) (List Char × List Char)),
        MAX_FILE_BYTES < size →
        transcribe_audio (some size) api
          = ({ transcription := [], transcription_status := "error".data,
               transcription_language := none,
               error_message := some (.tooLarge size) }, false))
    ∧ (∀ (size : Nat) (e : List Char), size ≤ MAX_FILE_BYTES →
        transcribe_audio (some size) (.error e)
          = ({ transcription := [], transcription_status := "error".data,
               transcription_language := none,
               error_message := some (.api e) }, true))
    ∧ (∀ fs api (rows : List TRow), fs.complete = none → fs.progress = some rows →
        (scan_media_files fs.mediaDir).isEmpty = false →
        ∀ i ∈ pendingIdxs rows,
          TEvent.processRow i (rows.getD i dfltTRow).file_path
            ∈ (transcribe_main fs api).2) := by
  refine ⟨?_, ?_, ?_⟩
  · intro size api h
    simp [transcribe_audio, h]
  · intro size e h
    simp [transcribe_audio, Nat.not_lt.mpr h]
  · intro fs api rows hc hp hscan i hi
    refine mem_of_processRowEvents _ _ _ ?_
    rw [(transcribe_main_events api hc hp hscan).1]
    exact List.mem_map.mpr ⟨i, hi, rfl⟩

/-- C9 witness: the error-handling theorem at concrete inputs — a 30 MB
file is rejected untried; a 100-byte file whose API call throws gets an
error row; and with an always-throwing API the pending row of a progress
table is still processed. -/
theorem claim9_witness :
    transcribe_audio (some 30000000) (.ok ("x".data, "pt".data))
      = ({ transcription := [], transcription_status := "error".data,
           transcription_language := none,
           error_message := some (.tooLarge 30000000) }, false)
    ∧ transcribe_audio (some 100) (.error "boom".data)
      = ({ transcription := [], transcription_status := "error".data,
           transcription_language := none,
           error_message := some (.api "boom".data) }, true)
    ∧ TEvent.processRow 1 "a-audio-1.opus".data
        ∈ (transcribe_main ⟨some exMediaDir, some [compRowB, pendRowA], none⟩
            (fun _ => .error "boom".data)).2 :=
  ⟨claim9_per_file.1 30000000 _ (by decide),
   claim9_per_file.2.1 100 "boom".data (by decide),
   claim9_per_file.2.2 _ _ [compRowB, pendRowA] rfl rfl (by decide) 1 (by decide)⟩

end WDS
